import Mathlib

/-!
Verification of the Netunna REDE splitter (split-and-reconcile engine and
pull agent) against its natural-language specification.  Lines of the
mother files are modelled as lists of characters; the processors from
`modules/eevc_processor.py`, `modules/eevd_processor.py`,
`modules/eefi_processor.py` and `agente/downloader.py` are translated
into executable Lean definitions and the spec claims are settled against
them.
-/

set_option maxRecDepth 100000

namespace Splitter

/-- A line (or field) of a file, as a list of characters. -/
abbrev Str := List Char

/-- Convert a Lean string literal to our character-list representation. -/
def strOf (s : String) : Str := s.toList

/-- Python `line[a:b]` (0-based, half-open, clamped at the ends). -/
def sliceL (l : Str) (a b : Nat) : Str := (l.drop a).take (b - a)

/-- Python `str.strip()`: drop leading and trailing whitespace. -/
def stripL (l : Str) : Str :=
  ((l.dropWhile Char.isWhitespace).reverse.dropWhile Char.isWhitespace).reverse

/-- Python `str.isdigit()` (false on the empty string). -/
def isDigits (l : Str) : Bool := !l.isEmpty && l.all Char.isDigit

/-- Numeric value of a digit string (most significant digit first). -/
def digitsVal (l : Str) : Nat := l.foldl (fun n c => 10 * n + (c.toNat - 48)) 0

/-- Fuel-driven decimal rendering helper (structural, kernel-reducible). -/
def natToDigitsAux : Nat → Nat → Str
  | 0, _ => []
  | fuel + 1, n =>
      if n < 10 then [Char.ofNat (48 + n)]
      else natToDigitsAux fuel (n / 10) ++ [Char.ofNat (48 + n % 10)]

/-- Decimal rendering of a natural number, most significant digit first
(Python `str(n)` for a non-negative integer). -/
def natToDigits (n : Nat) : Str := natToDigitsAux (n + 1) n

/-- Python `s.zfill(w)`: left-pad with zeros to width `w` (never truncates). -/
def zfill (w : Nat) (s : Str) : Str := List.replicate (w - s.length) '0' ++ s

/-- Python `str(n).zfill(w)` for a natural number. -/
def padNum (n w : Nat) : Str := zfill w (natToDigits n)

/-- `utils/validation_utils.py` `to_centavos`: strip, remove '.' and ',',
then parse as integer if all digits, otherwise 0. -/
def to_centavos (s : Str) : Nat :=
  let t := (stripL s).filter (fun c => !(c == '.') && !(c == ','))
  if isDigits t then digitsVal t else 0

/-- `eefi_processor.py` `_to_int_cents`: keep only the digits and parse
(`int(num or "0")`). -/
def to_int_cents (s : Str) : Nat := digitsVal (s.filter Char.isDigit)

/-- Python `line.startswith(p)`. -/
def startsWithL (p l : Str) : Bool := l.take p.length == p

/-- Python `os.path.join(a, b)` for the forward-slash platforms used here. -/
def joinPath (a b : Str) : Str := a ++ strOf "/" ++ b

/-- `utils/file_utils.py` `sanitize_filename`: strip, replace every char
outside `[A-Za-z0-9._-]` by '_' and collapse runs of '_'. -/
def validFnChar (c : Char) : Bool :=
  (('A' ≤ c && c ≤ 'Z') || ('a' ≤ c && c ≤ 'z') || ('0' ≤ c && c ≤ '9')
    || c == '.' || c == '_' || c == '-')

/-- Collapse consecutive underscores into one. -/
def collapseUnders : Str → Str
  | [] => []
  | '_' :: rest =>
      match collapseUnders rest with
      | '_' :: tail => '_' :: tail
      | tail => '_' :: tail
  | c :: rest => c :: collapseUnders rest

def sanitize_filename (s : Str) : Str :=
  collapseUnders ((stripL s).map (fun c => if validFnChar c then c else '_'))

/-- `utils/file_utils.py` `ensure_outfile`: returns the joined, sanitized path. -/
def ensure_outfile (dir name : Str) : Str := joinPath dir (sanitize_filename name)

/-! ## EEVC processor (`modules/eevc_processor.py`) -/

/-- `_liquido_rv`: "valor líquido" of RV records 006/010/016/022,
positions [114,129), guarded by the line length. -/
def liquido_rv (l : Str) : Nat :=
  if 129 ≤ l.length then to_centavos (sliceL l 114 129) else 0

/-- First three characters of a line (`line[:3]`). -/
def tipoOf (l : Str) : Str := sliceL l 0 3

/-- RV record types whose "valor líquido" is summed for reconciliation. -/
def rvTypes : List Str := [strOf "006", strOf "010", strOf "016", strOf "022"]

/-- CV / installment record types copied to the child but never summed. -/
def cvTypes : List Str :=
  [strOf "008", strOf "012", strOf "018", strOf "014", strOf "024"]

/-- State of the `process_eevc` parsing loop. -/
structure EevcState where
  header : Option Str
  trailer : Option Str
  pvs : List Str
  groups : Str → List Str
  totals : Str → Nat
  current : Option Str

def eevcInit : EevcState :=
  ⟨none, none, [], fun _ => [], fun _ => 0, none⟩

/-- Register a PV key in insertion order (Python `defaultdict` key creation). -/
def insertKey (ks : List Str) (k : Str) : List Str :=
  if k ∈ ks then ks else ks ++ [k]

/-- Append a line to the bucket of `pv` (functional view of
`grupos[pv].append(line)`). -/
def bumpGroup (g : Str → List Str) (pv l : Str) : Str → List Str :=
  fun p => if p = pv then g p ++ [l] else g p

/-- Python truthiness of `current_pv` (a `None` or empty string is falsy).
The line is routed to the current bucket only when the PV is non-empty. -/
def routeCurrent (st : EevcState) (l : Str) : EevcState :=
  match st.current with
  | some pv =>
      if pv.isEmpty then st
      else { st with groups := bumpGroup st.groups pv l }
  | none => st

/-- One iteration of the `for line in lines` loop of `process_eevc`. -/
def eevcStep (st : EevcState) (l : Str) : EevcState :=
  if tipoOf l = strOf "002" then { st with header := some l }
  else if tipoOf l = strOf "004" then
    { st with
      current := some (stripL (sliceL l 3 12))
      pvs := insertKey st.pvs (stripL (sliceL l 3 12))
      groups := bumpGroup st.groups (stripL (sliceL l 3 12)) l }
  else if tipoOf l ∈ rvTypes then
    match st.current with
    | some pv =>
        if pv.isEmpty then st
        else
          { st with
            totals := fun p => if p = pv then st.totals p + liquido_rv l else st.totals p
            groups := bumpGroup st.groups pv l }
    | none => st
  else if tipoOf l ∈ cvTypes then routeCurrent st l
  else if tipoOf l = strOf "026" then { st with current := none }
  else if tipoOf l = strOf "028" then { st with trailer := some l }
  else routeCurrent st l

/-- The whole parsing loop of `process_eevc` over the (non-blank) lines. -/
def eevcParse (lines : List Str) : EevcState := lines.foldl eevcStep eevcInit

/-- Sum of `_liquido_rv` over the RV records (006/010/016/022) of a list. -/
def rvSum (g : List Str) : Nat :=
  ((g.filter (fun l => tipoOf l ∈ rvTypes)).map liquido_rv).sum

/-- `soma_total_processado`: accumulated over the child-generation loop,
i.e. the sum of the per-PV totals in dictionary (insertion) order. -/
def eevcSoma (st : EevcState) : Nat := (st.pvs.map st.totals).sum

/-- Is `sliceL l k (k+len)` a full run of `len` digits?  Used to model the
leftmost match of the regexes `(\d{6})(\d{9})` (len 15) and `(\d{9})` (len 9). -/
def hasDigitRun (l : Str) (k len : Nat) : Bool :=
  (sliceL l k (k + len)).length == len && (sliceL l k (k + len)).all Char.isDigit

/-- Index of the leftmost run of `len` consecutive digits, if any
(the semantics of `re.search` for a fixed-length digit pattern). -/
def findRun (len : Nat) (l : Str) : Option Nat :=
  (List.range l.length).find? (fun k => hasDigitRun l k len)

/-- `_rewrite_header_with_pv`: replace, in the first match of
`(\d{6})\d{9}`, the nine digits following the six-digit group by the PV
zero-padded to nine; unchanged when there is no match. -/
def rewrite_header_with_pv (h pv : Str) : Str :=
  match findRun 15 h with
  | some i => h.take (i + 6) ++ zfill 9 pv ++ h.drop (i + 15)
  | none => h

/-- The filename fallback regex of `_extract_data_nsa`:
`\.(\d{3})\D*$` — a dot, three digits, then no digit until the end. -/
def findDotNsa (fn : Str) : Option Str :=
  ((List.range fn.length).find? (fun i =>
      (fn.get? i == some '.')
      && ((sliceL fn (i + 1) (i + 4)).length == 3)
      && (sliceL fn (i + 1) (i + 4)).all Char.isDigit
      && (fn.drop (i + 4)).all (fun c => !c.isDigit))).map
    (fun i => sliceL fn (i + 1) (i + 4))

/-- `_extract_data_nsa`: emission date (DDMMAA) and NSA from the 002
header, with the regex/filename fallbacks of the source. -/
def extract_data_nsa (header filename : Str) : Str × Str :=
  let data_ref :=
    if startsWithL (strOf "002") header && decide (11 ≤ header.length) then
      if isDigits (sliceL header 3 11) then
        sliceL (sliceL header 3 11) 0 2 ++ sliceL (sliceL header 3 11) 2 4
          ++ sliceL (sliceL header 3 11) 6 8
      else strOf "000000"
    else strOf "000000"
  let nsa :=
    match findRun 15 header with
    | some i =>
        if isDigits (sliceL header i (i + 6)) then sliceL header (i + 3) (i + 6)
        else strOf "000"
    | none => strOf "000"
  let nsa :=
    if nsa = strOf "000" then
      match findDotNsa filename with
      | some g => g
      | none => nsa
    else nsa
  (data_ref, nsa)

/-- `_build_trailer_026`: the synthesized per-PV trailer, all monetary and
counter fields zeroed except "total líquido". -/
def build_trailer_026 (pv : Str) (total : Nat) : Str :=
  strOf "026" ++ zfill 9 pv
    ++ zfill 15 (strOf "0")        -- bruto
    ++ zfill 6 (strOf "0")         -- qtd rejeitados
    ++ zfill 15 (strOf "0")        -- rejeitado
    ++ zfill 15 (strOf "0")        -- rotativo
    ++ zfill 15 (strOf "0")        -- parcelado sem juros
    ++ zfill 15 (strOf "0")        -- IATA
    ++ zfill 15 (strOf "0")        -- dolar
    ++ zfill 15 (strOf "0")        -- desconto
    ++ padNum total 15             -- liquido (preenchido)
    ++ zfill 15 (strOf "0")        -- gorjeta
    ++ zfill 15 (strOf "0")        -- taxa embarque
    ++ zfill 6 (strOf "0")         -- qtd acatados

/-- The detail lines written to a child: the PV bucket minus any line
starting with "026" (the original per-PV trailer is replaced). -/
def eevcChildBody (st : EevcState) (pv : Str) : List Str :=
  (st.groups pv).filter (fun l => !startsWithL (strOf "026") l)

/-- All lines of an EEVC child file: rewritten header, bucket detail
lines, recalculated 026, and the mother 028 trailer kept at the end. -/
def eevcChildLines (st : EevcState) (pv header trailer : Str) : List Str :=
  rewrite_header_with_pv header pv :: eevcChildBody st pv
    ++ [build_trailer_026 pv (st.totals pv), trailer]

/-- `<PV>_<DDMMAA>_<NSA>_EEVC.txt`. -/
def eevcChildName (pv data nsa : Str) : Str :=
  pv ++ strOf "_" ++ data ++ strOf "_" ++ nsa ++ strOf "_EEVC.txt"

/-- Summary of a `process_eevc` run. -/
structure EevcResult where
  data_ref : Str
  nsa : Str
  total_trailer : Nat
  total_processado : Nat
  ok : Bool
  gerados : List Str
deriving DecidableEq

/-- "Valor total líquido" of the mother 028 trailer, positions [133,148). -/
def eevcTrailerTotal (trailer : Str) : Nat :=
  let s := if 148 ≤ trailer.length then stripL (sliceL trailer 133 148) else strOf "0"
  if isDigits s then digitsVal s else 0

/-- `process_eevc` (the parts visible to the claims): parses the mother
file, names one child per PV directly under `output_dir`, and compares
the summed RV totals with the 028 trailer.  Errors are the `raise`s of
the source. -/
def processEevc (lines : List Str) (filename output_dir : Str) :
    Except Str EevcResult :=
  if lines.isEmpty then .error (strOf "Arquivo EEVC vazio.") else
  let st := eevcParse lines
  match st.header, st.trailer with
  | some header, some trailer =>
      let dn := extract_data_nsa header filename
      let gerados := st.pvs.map
        (fun pv => ensure_outfile output_dir (eevcChildName pv dn.1 dn.2))
      let soma := eevcSoma st
      let total := eevcTrailerTotal trailer
      .ok ⟨dn.1, dn.2, total, soma, total == soma, gerados⟩
  | _, _ => .error (strOf "Header (002) ou Trailer (028) ausentes no arquivo EEVC.")

/-- A small concrete EEVC mother file used to instantiate the theorems:
header 002 (date 05102025), one PV block 004 for PV 123456789 with one RV
006 of líquido 12345 cents and one CV 008, and the 028 trailer declaring
total líquido 12345. -/
def eevcExHeader : Str := strOf "002051020250041X"

def eevcExRv006 : Str :=
  strOf "006" ++ List.replicate 111 '0' ++ strOf "000000000012345"

def eevcExTrailer : Str :=
  strOf "028" ++ List.replicate 130 '0' ++ strOf "000000000012345"

def eevcExLines : List Str :=
  [eevcExHeader, strOf "004123456789", eevcExRv006, strOf "008XYZ", eevcExTrailer]

/-! ## EEFI processor (`modules/eefi_processor.py`, v5.6) -/

/-- The "valor" ranges of `LAYOUT_POS` for the financial record types
(034/036/038 at [31,46), 043 at [48,63), 035 at [29,44), 040/045 at
[12,27)); `none` for types without a "valor" entry. -/
def eefiValor (tipo : Str) : Option (Nat × Nat) :=
  if tipo = strOf "034" then some (31, 46)
  else if tipo = strOf "036" then some (31, 46)
  else if tipo = strOf "043" then some (48, 63)
  else if tipo = strOf "035" then some (29, 44)
  else if tipo = strOf "038" then some (31, 46)
  else if tipo = strOf "040" then some (12, 27)
  else if tipo = strOf "045" then some (12, 27)
  else none

/-- Record types whose `LAYOUT_POS` entry declares a "pv" field (always
at [3,12)). -/
def eefiHasPv (tipo : Str) : Bool :=
  tipo ∈ [strOf "032", strOf "034", strOf "035", strOf "036", strOf "038",
    strOf "040", strOf "043", strOf "045"]

/-- The per-type alternative PV ranges of `_extract_pv` ("variações
vistas em campo"). -/
def eefiAltRanges (tipo : Str) : List (Nat × Nat) :=
  if tipo = strOf "045" then [(12, 21), (13, 22), (22, 31), (3, 12)]
  else if tipo ∈ [strOf "034", strOf "035", strOf "036", strOf "038", strOf "043"] then
    [(13, 22), (22, 31)]
  else if tipo = strOf "040" then [(13, 22), (22, 31)]
  else []

/-- `pv.isdigit() and len(pv) == 9`. -/
def nineDigits (s : Str) : Bool := isDigits s && (s.length == 9)

/-- `_extract_pv`: declared range, then per-type alternatives, then the
first nine-digit run in the first 60 characters; `none` when all fail. -/
def extract_pv (l : Str) (tipo : Str) : Option Str :=
  if eefiHasPv tipo && nineDigits (stripL (sliceL l 3 12)) then
    some (stripL (sliceL l 3 12))
  else
    match (eefiAltRanges tipo).find?
        (fun r => nineDigits (stripL (sliceL l r.1 r.2))) with
    | some r => some (stripL (sliceL l r.1 r.2))
    | none =>
        match findRun 9 (l.take 60) with
        | some i => some (sliceL (l.take 60) i (i + 9))
        | none => none

/-- `setdefault`-append on an insertion-ordered association list
(Python `dict.setdefault(k, []).append(v)` / `defaultdict` append). -/
def appendAt {α : Type} (m : List (Str × List α)) (k : Str) (v : α) :
    List (Str × List α) :=
  match m with
  | [] => [(k, [v])]
  | (k', vs) :: rest =>
      if k' = k then (k', vs ++ [v]) :: rest else (k', vs) :: appendAt rest k v

/-- Detail record types of the EEFI grouping loop. -/
def eefiDetailTypes : List Str :=
  [strOf "040", strOf "045", strOf "034", strOf "035", strOf "036",
    strOf "038", strOf "043"]

/-- One iteration of the EEFI grouping loop (mode `completo` routes 032
headers too; 030/052 never enter a child). -/
def eefiMapStep (completo : Bool) (m : List (Str × List Str)) (ln : Str) :
    List (Str × List Str) :=
  if tipoOf ln = strOf "030" ∨ tipoOf ln = strOf "052" then m
  else if completo = true ∧ tipoOf ln = strOf "032" then
    match extract_pv ln (strOf "032") with
    | some pv => appendAt m pv ln
    | none => m
  else if tipoOf ln ∈ eefiDetailTypes then
    match extract_pv ln (tipoOf ln) with
    | some pv => appendAt m pv ln
    | none => m
  else m

def eefiPvMap (completo : Bool) (lines : List Str) : List (Str × List Str) :=
  lines.foldl (eefiMapStep completo) []

/-- Per-PV accumulators of the EEFI totals loop. -/
structure EefiTot where
  qtdCred : Nat
  vCred : Nat
  qtdAnt : Nat
  vAnt : Nat
  qtdAjCred : Nat
  vAjCred : Nat
  qtdAjDeb : Nat
  vAjDeb : Nat
deriving DecidableEq

def eefiTotInit : EefiTot := ⟨0, 0, 0, 0, 0, 0, 0, 0⟩

/-- "extrai valor conforme tipo" — the monetary field of a record. -/
def eefiValorOf (ln : Str) : Nat :=
  match eefiValor (tipoOf ln) with
  | some r => to_int_cents (sliceL ln r.1 r.2)
  | none => 0

/-- One iteration of the per-PV totals loop: 034 → créditos normais,
036 → antecipações, 043 → ajustes a crédito, 035/038/045 → ajustes a
débito; 040 (Serasa) and anything else is NOT summed. -/
def eefiAggStep (t : EefiTot) (ln : Str) : EefiTot :=
  if tipoOf ln = strOf "034" then
    { t with
      qtdCred := t.qtdCred + 1
      vCred := t.vCred + eefiValorOf ln }
  else if tipoOf ln = strOf "036" then
    { t with
      qtdAnt := t.qtdAnt + 1
      vAnt := t.vAnt + eefiValorOf ln }
  else if tipoOf ln = strOf "043" then
    { t with
      qtdAjCred := t.qtdAjCred + 1
      vAjCred := t.vAjCred + eefiValorOf ln }
  else if tipoOf ln ∈ [strOf "035", strOf "038", strOf "045"] then
    { t with
      qtdAjDeb := t.qtdAjDeb + 1
      vAjDeb := t.vAjDeb + eefiValorOf ln }
  else t

def eefiAgg (regs : List Str) : EefiTot := regs.foldl eefiAggStep eefiTotInit

/-- `total_pv = valor_cred_norm + valor_ant + valor_aj_cred - valor_aj_deb`. -/
def eefiTotalPv (t : EefiTot) : Int :=
  ((t.vCred : Int) + t.vAnt + t.vAjCred) - t.vAjDeb

/-- Signed total of a 052 trailer:
`valor_rv + valor_ant + valor_aj_cred - valor_aj_deb`
at [26,41), [47,62), [66,81), [85,100). -/
def eefiTrailerTotal (tr : Str) : Int :=
  ((to_int_cents (sliceL tr 26 41) : Int) + to_int_cents (sliceL tr 47 62)
    + to_int_cents (sliceL tr 66 81)) - to_int_cents (sliceL tr 85 100)

/-- `_write_fixed`: overwrite `line[start:end]` with `value`, truncated
to the width and left-justified (space-padded on the right). -/
def write_fixed (line : Str) (start stop : Nat) (value : Str) : Str :=
  line.take start
    ++ (value.take (stop - start)
        ++ List.replicate ((stop - start) - (value.take (stop - start)).length) ' ')
    ++ line.drop stop

/-- The child 052 trailer, `ljust`-padded to 400 characters. -/
def build_trailer_052 (pv : Str) (t : EefiTot) (qtdRegistros : Nat) : Str :=
  let core := strOf "052" ++ padNum 1 4 ++ padNum qtdRegistros 6
    ++ padNum (digitsVal pv) 9
    ++ padNum t.qtdCred 4 ++ padNum t.vCred 15
    ++ padNum t.qtdAnt 6 ++ padNum t.vAnt 15
    ++ padNum t.qtdAjCred 4 ++ padNum t.vAjCred 15
    ++ padNum t.qtdAjDeb 4 ++ padNum t.vAjDeb 15
  core ++ List.replicate (400 - core.length) ' '

/-- All lines of an EEFI child: header 030 with the PV overwritten at
[81,90), the bucket records, and the child 052 trailer
(`qtd_registros = 2 + len(registros)`). -/
def eefiChildLines (hdr pv : Str) (regs : List Str) : List Str :=
  write_fixed hdr 81 90 (padNum (digitsVal pv) 9) :: regs
    ++ [build_trailer_052 pv (eefiAgg regs) (2 + regs.length)]

/-- The dict returned by `process_eefi`. -/
structure EefiResult where
  nsa : Str
  output_dir : Str
  files_generated : List Str
  report_csv : Str
  sum_pvs : Int
  total_052 : Int
  ok : Bool
  message : Str
deriving DecidableEq

/-- The `except`-branch dict of `process_eefi`. -/
def eefiError (msg : Str) : EefiResult :=
  ⟨strOf "000000", [], [], [], 0, 0, false, strOf "Erro: " ++ msg⟩

/-- `process_eefi`: total function — every internal `raise` is caught and
turned into the error dict. -/
def processEefi (lines : List Str) (output_root : Str) : EefiResult :=
  match lines with
  | [] => eefiError (strOf "Arquivo vazio.")
  | header :: _ =>
      let nsa := sliceL header 75 81
      let data := sliceL header 3 11
      let tem032 := lines.any (fun ln => startsWithL (strOf "032") ln)
      let tem040 := lines.any (fun ln => startsWithL (strOf "040") ln)
      let tem052 := lines.any (fun ln => startsWithL (strOf "052") ln)
      if !tem032 && !tem040 then
        eefiError (strOf "Layout nao reconhecido: nao ha 032 nem 040.")
      else
        let total052 :=
          if tem052 then
            match lines.reverse.find? (fun ln => startsWithL (strOf "052") ln) with
            | some tr => eefiTrailerTotal tr
            | none => 0
          else 0
        let m := eefiPvMap tem032 lines
        let outDir := joinPath output_root (strOf "NSA_" ++ nsa)
        let files := m.map (fun kv => joinPath outDir
          (kv.1 ++ strOf "_" ++ data ++ strOf "_" ++ nsa ++ strOf "_EEFI.txt"))
        let soma := (m.map (fun kv => eefiTotalPv (eefiAgg kv.2))).sum
        let ok := if tem052 then soma == total052 else true
        ⟨nsa, outDir, files, [], soma, total052, ok,
          if tem032 then strOf "EEFI processado (modo=032)"
          else strOf "EEFI processado (modo=040/045)"⟩

/-- The extraction procedure exactly as claim C7 words it: declared
range, then for BOTH 040 and 045 the alternatives
[12,21), [13,22), [22,31), [3,12) in order, then the first nine-digit
run in the first 60 bytes. -/
def claimExtractPv (l : Str) (tipo : Str) : Option Str :=
  if eefiHasPv tipo && nineDigits (stripL (sliceL l 3 12)) then
    some (stripL (sliceL l 3 12))
  else
    match [((12 : Nat), (21 : Nat)), (13, 22), (22, 31), (3, 12)].find?
        (fun r => nineDigits (stripL (sliceL l r.1 r.2))) with
    | some r => some (stripL (sliceL l r.1 r.2))
    | none =>
        match findRun 9 (l.take 60) with
        | some i => some (sliceL (l.take 60) i (i + 9))
        | none => none

/-- The claim-C3 version of the aggregation: in simplified mode the 040
value is ALSO accumulated into créditos normais. -/
def claimAggStep040 (t : EefiTot) (ln : Str) : EefiTot :=
  if tipoOf ln = strOf "034" ∨ tipoOf ln = strOf "040" then
    { t with
      qtdCred := t.qtdCred + 1
      vCred := t.vCred + eefiValorOf ln }
  else eefiAggStep t ln

def claimAgg040 (regs : List Str) : EefiTot := regs.foldl claimAggStep040 eefiTotInit

/-! ## EEVD processor (`modules/eevd_processor.py`, v4.5) -/

/-- Python `[p.strip() for p in raw.split(",")]`. -/
def splitComma (l : Str) : List Str := (l.splitOn ',').map stripL

/-- Per-PV counters of the EEVD stats dictionary. -/
structure EevdStats where
  qtd_rv : Nat
  qtd_cv : Nat
  bruto : Nat
  desconto : Nat
  liquido : Nat
  bruto_pred : Nat
  desc_pred : Nat
  liq_pred : Nat
deriving DecidableEq

def eevdStatsInit : EevdStats := ⟨0, 0, 0, 0, 0, 0, 0, 0⟩

/-- State of the EEVD record-parsing loop. -/
structure EevdState where
  regs : List (Str × List (List Str))
  stats : Str → EevdStats
  statKeys : List Str
  rvToPv : Str → Option Str
  contagem : Str → Nat

def eevdInit : EevdState :=
  ⟨[], fun _ => eevdStatsInit, [], fun _ => none, fun _ => 0⟩

/-- Movement record types (`TIPOS_MOVIMENTO`). -/
def eevdMovTypes : List Str :=
  [strOf "01", strOf "011", strOf "05", strOf "13", strOf "20",
    strOf "08", strOf "09", strOf "11", strOf "17", strOf "18", strOf "19"]

/-- Field `i` of a record, `""` when absent. -/
def fld (parts : List Str) (i : Nat) : Str := (parts.get? i).getD []

/-- Update one PV's stats entry. -/
def setStats (f : Str → EevdStats) (pv : Str) (s : EevdStats) : Str → EevdStats :=
  fun p => if p = pv then s else f p

/-- The "01" (RV original) branch of the parsing loop. -/
def eevdStep01 (st : EevdState) (parts : List Str) : EevdState :=
  let st1 :=
    match parts.get? 4 with
    | some rv =>
        { st with rvToPv := fun r => if r = rv then some (fld parts 1) else st.rvToPv r }
    | none => st
  match parts.get? 1 with
  | some pv =>
      if pv.isEmpty then st1
      else
        let qtdCv := if isDigits (fld parts 5) then digitsVal (fld parts 5) else 0
        let s := st1.stats pv
        let tipo9 := (fld parts 9).map Char.toUpper
        let s' : EevdStats :=
          { qtd_rv := s.qtd_rv + 1
            qtd_cv := s.qtd_cv + qtdCv
            bruto := s.bruto + to_centavos (fld parts 6)
            desconto := s.desconto + to_centavos (fld parts 7)
            liquido := s.liquido + to_centavos (fld parts 8)
            bruto_pred := s.bruto_pred
              + (if tipo9 = strOf "P" then to_centavos (fld parts 6) else 0)
            desc_pred := s.desc_pred
              + (if tipo9 = strOf "P" then to_centavos (fld parts 7) else 0)
            liq_pred := s.liq_pred
              + (if tipo9 = strOf "P" then to_centavos (fld parts 8) else 0) }
        { st1 with
          stats := setStats st1.stats pv s'
          statKeys := insertKey st1.statKeys pv
          regs := appendAt st1.regs pv parts }
  | none => st1

/-- The branches that only append the record and bump `qtd_cv`
(types 011, 05 and 13, with the PV at field 1). -/
def eevdStepCv (st : EevdState) (parts : List Str) : EevdState :=
  match parts.get? 1 with
  | some pv =>
      if pv.isEmpty then st
      else
        { st with
          regs := appendAt st.regs pv parts
          stats := setStats st.stats pv
            { st.stats pv with qtd_cv := (st.stats pv).qtd_cv + 1 }
          statKeys := insertKey st.statKeys pv }
  | none => st

/-- Route a type-20 record to a known PV (bumps `qtd_cv`). -/
def eevdRoute20 (st : EevdState) (parts : List Str) (pv : Str) : EevdState :=
  { st with
    regs := appendAt st.regs pv parts
    stats := setStats st.stats pv
      { st.stats pv with qtd_cv := (st.stats pv).qtd_cv + 1 }
    statKeys := insertKey st.statKeys pv }

/-- The "20" (recarga) branch: via the RV → PV map, else the single
existing bucket, else dropped. -/
def eevdStep20 (st : EevdState) (parts : List Str) : EevdState :=
  let rv :=
    match parts.get? 3 with
    | some r => some r
    | none => parts.get? 2
  match rv with
  | some r =>
      if r.isEmpty then
        if st.regs.length = 1 then eevdRoute20 st parts (st.regs.headD ([], [])).1 else st
      else
        match st.rvToPv r with
        | some pv => eevdRoute20 st parts pv
        | none =>
            if st.regs.length = 1 then eevdRoute20 st parts (st.regs.headD ([], [])).1
            else st
  | none =>
      if st.regs.length = 1 then eevdRoute20 st parts (st.regs.headD ([], [])).1
      else st

/-- PV field index for the adjustment/informative types
(08 and 09 → 1; 11, 18, 19 → 2; 17 → 5). -/
def eevdAdjIdx (t : Str) : Option Nat :=
  if t = strOf "08" then some 1
  else if t = strOf "09" then some 1
  else if t = strOf "11" then some 2
  else if t = strOf "17" then some 5
  else if t = strOf "18" then some 2
  else if t = strOf "19" then some 2
  else none

/-- One iteration of the EEVD record-parsing loop on an already-split
record. -/
def eevdStepParts (st : EevdState) (parts : List Str) : EevdState :=
  match parts with
  | [] => st
  | t :: _ =>
      let st := { st with contagem := fun x => if x = t then st.contagem x + 1 else st.contagem x }
      if t = strOf "01" then eevdStep01 st parts
      else if t = strOf "011" then eevdStepCv st parts
      else if t = strOf "05" ∨ t = strOf "13" then eevdStepCv st parts
      else if t = strOf "20" then eevdStep20 st parts
      else
        match eevdAdjIdx t with
        | some i =>
            match parts.get? i with
            | some pv =>
                if pv.isEmpty then st
                else { st with regs := appendAt st.regs pv parts }
            | none => st
        | none => st

def eevdStep (st : EevdState) (raw : Str) : EevdState :=
  eevdStepParts st (splitComma raw)

def eevdParse (detalhes : List Str) : EevdState := detalhes.foldl eevdStep eevdInit

/-- `sum(s["bruto"] for s in stats_pv.values())` and friends. -/
def eevdSomaBruto (st : EevdState) : Nat := (st.statKeys.map (fun pv => (st.stats pv).bruto)).sum

def eevdSomaDesc (st : EevdState) : Nat := (st.statKeys.map (fun pv => (st.stats pv).desconto)).sum

def eevdSomaLiq (st : EevdState) : Nat := (st.statKeys.map (fun pv => (st.stats pv).liquido)).sum

/-- Trailer record 02 of a child. -/
def eevdReg02 (trailerId : Str) (s : EevdStats) : List Str :=
  [strOf "02", trailerId, padNum s.qtd_rv 3, padNum s.qtd_cv 6,
    padNum s.bruto 15, padNum s.desconto 15, padNum s.liquido 15,
    padNum s.bruto_pred 15, padNum s.desc_pred 15, padNum s.liq_pred 15]

/-- Trailer record 03: a copy of 02 with the type replaced. -/
def eevdReg03 (trailerId : Str) (s : EevdStats) : List Str :=
  (eevdReg02 trailerId s).set 0 (strOf "03")

/-- Trailer record 04 of a child, with the computed record count. -/
def eevdReg04 (trailerId : Str) (s : EevdStats) (totalRegistros : Nat) : List Str :=
  [strOf "04", trailerId, padNum s.qtd_rv 6, padNum s.qtd_cv 6,
    padNum s.bruto 15, padNum s.desconto 15, padNum s.liquido 15,
    padNum s.bruto_pred 15, padNum s.desc_pred 15, padNum s.liq_pred 15,
    padNum totalRegistros 6]

/-- All records of an EEVD child file (header with field 1 replaced by
the PV, the routed records, then trailers 02, 03 and 04 where
`total_registros = len(linhas_out) + 3`). -/
def eevdChildRecs (headerParts : List Str) (matriz pv : Str) (s : EevdStats)
    (regs : List (List Str)) : List (List Str) :=
  let headerPv := headerParts.set 1 pv
  let linhasOut := headerPv :: regs
  let totalRegistros := linhasOut.length + 3
  linhasOut ++ [eevdReg02 matriz s, eevdReg03 matriz s, eevdReg04 matriz s totalRegistros]

/-- `"04" in l[:3]` (Python substring test used to decide whether a 04
trailer exists). -/
def hasSub04 (l : Str) : Bool :=
  (sliceL (sliceL l 0 3) 0 2 == strOf "04") || (sliceL (sliceL l 0 3) 1 3 == strOf "04")

/-- First comma-field of a raw line (without stripping). -/
def rawHead (l : Str) : Str := (l.splitOn ',').headD []

/-- `_extrair_data_nsa` helper: the leftmost, greedy match of
`(\d{6,8})`. -/
def findRun68 (fn : Str) : Option Str :=
  match (List.range fn.length).find? (fun i => hasDigitRun fn i 6) with
  | some i =>
      some (if hasDigitRun fn i 8 then sliceL fn i (i + 8)
        else if hasDigitRun fn i 7 then sliceL fn i (i + 7)
        else sliceL fn i (i + 6))
  | none => none

/-- `_extrair_data_nsa` helper: the leftmost match of
`(\d{3})\D*\.[0-9]+$`, returning the three digits. -/
def findNsaPattern (fn : Str) : Option Str :=
  ((List.range fn.length).find? (fun i =>
      hasDigitRun fn i 3
      && (List.range (fn.length)).any (fun j =>
          decide (i + 3 ≤ j) && (fn.get? j == some '.')
          && (sliceL fn (i + 3) j).all (fun c => !c.isDigit)
          && !(fn.drop (j + 1)).isEmpty
          && (fn.drop (j + 1)).all Char.isDigit))).map
    (fun i => sliceL fn i (i + 3))

/-- `_extrair_data_nsa` (EEVD): date DDMMAA and 3-digit NSA from the 00
header fields, with the filename fallbacks. -/
def eevdDataNsa (headerParts : List Str) (filename : Str) : Str × Str :=
  let data0 :=
    if decide (3 < headerParts.length) && isDigits (stripL (fld headerParts 2))
        && ((stripL (fld headerParts 2)).length == 8) then
      sliceL (stripL (fld headerParts 2)) 0 2 ++ sliceL (stripL (fld headerParts 2)) 2 4
        ++ sliceL (stripL (fld headerParts 2)) 6 8
    else strOf "000000"
  let nsa0 :=
    if decide (7 < headerParts.length) && isDigits (stripL (fld headerParts 7)) then
      zfill 3 ((stripL (fld headerParts 7)).drop ((stripL (fld headerParts 7)).length - 3))
    else strOf "000"
  let data1 :=
    if data0 = strOf "000000" then
      match findRun68 filename with
      | some g => g.drop (g.length - 6)
      | none => data0
    else data0
  let nsa1 :=
    if nsa0 = strOf "000" then
      match findNsaPattern filename with
      | some g => g
      | none => nsa0
    else nsa0
  (data1, nsa1)

/-- The PVs for which `process_eevd` writes a child: non-empty buckets,
and the matriz bucket only when it has own movement. -/
def eevdGenPvs (regsMap : List (Str × List (List Str))) (matriz : Str) :
    List (Str × List (List Str)) :=
  regsMap.filter (fun kv => !kv.2.isEmpty
    && (if kv.1 = matriz then kv.2.any (fun r => eevdMovTypes.contains (r.headD []))
        else true))

/-- The dict returned by `process_eevd` (movement branch;
`semMovimento` marks the early "sem movimento real" return). -/
structure EevdResult where
  data_ref : Str
  nsa : Str
  output_dir : Str
  filhos : List Str
  trailerBruto : Nat
  trailerDesc : Nat
  trailerLiq : Nat
  somaBruto : Nat
  somaDesc : Nat
  somaLiq : Nat
  okStatus : Bool
  semMovimento : Bool
deriving DecidableEq

/-- `process_eevd` (the parts visible to the claims).  Raises on fewer
than two lines and on `max()` over an empty selection. -/
def processEevd (lines : List Str) (filename outputDir : Str) :
    Except Str EevdResult :=
  if lines.length < 2 then .error (strOf "Arquivo EEVD vazio ou sem trailer.") else
  let headerParts := splitComma (lines.headD [])
  let cond := lines.any (fun l => hasSub04 l)
  let last04 : Except Str Nat :=
    if cond then
      match ((List.range lines.length).filter (fun i =>
          rawHead ((lines.get? i).getD []) == strOf "04")).max? with
      | some k => .ok k
      | none => .error (strOf "max() arg is an empty sequence")
    else .ok (lines.length - 1)
  match last04 with
  | .error e => .error e
  | .ok k =>
      let trailerParts := splitComma ((lines.get? k).getD [])
      let detalhes := (lines.drop 1).take (k - 1)
      let dn := eevdDataNsa headerParts filename
      let loteDir := joinPath outputDir (strOf "NSA_" ++ dn.2)
      let st := eevdParse detalhes
      let temMovimento := eevdMovTypes.any (fun t => st.contagem t > 0)
      if !temMovimento then
        .ok ⟨dn.1, dn.2, loteDir, [], 0, 0, 0, 0, 0, 0, true, true⟩
      else
        let tb := to_centavos ((trailerParts.get? 4).getD (strOf "0"))
        let td := to_centavos ((trailerParts.get? 5).getD (strOf "0"))
        let tl := to_centavos ((trailerParts.get? 6).getD (strOf "0"))
        let sb := eevdSomaBruto st
        let sd := eevdSomaDesc st
        let sl := eevdSomaLiq st
        let matriz := (headerParts.get? 1).getD (strOf "0")
        let filhos := (eevdGenPvs st.regs matriz).map (fun kv =>
          ensure_outfile loteDir
            (kv.1 ++ strOf "_" ++ dn.1 ++ strOf "_" ++ dn.2 ++ strOf "_EEVD.txt"))
        .ok ⟨dn.1, dn.2, loteDir, filhos, tb, td, tl, sb, sd, sl,
          (tb == sb) && (td == sd) && (tl == sl), false⟩

/-! ## Pull agent (`agente/downloader.py`, `_pull_lease`) -/

/-- A file descriptor of the lease response (size is
`f.get("tamanho") or f.get("size")`, sha is `f.get("sha256")`). -/
structure FileDesc where
  id : Nat
  lote : Str
  nome : Str
  size : Option Nat
  sha : Option Str
deriving DecidableEq

/-- Oracle for one streaming download: whether the stream+rename
completed, the resulting on-disk byte count and digest, and whether a
partial file is left behind when the stream fails. -/
structure DlOutcome where
  success : Bool
  bytesWritten : Nat
  digest : Str
  leftOnDisk : Bool
deriving DecidableEq

def lowerStr (s : Str) : Str := s.map Char.toLower

/-- Everything observable of one `_pull_lease` run: the confirm payload
lists, the saved paths, the deleted paths, and the confirm requests
posted (exactly one per run). -/
structure LeaseOutcome where
  okIds : List Nat
  failIds : List Nat
  saved : List Str
  deleted : List Str
  confirms : List (List Nat × List Nat)
deriving DecidableEq

/-- Does the per-file `try` block raise?  `if size and bytes != int(size)`
(a `None` or `0` size skips the check) and
`if VERIFY_SHA256 and sha: got.lower() != sha.lower()` (a `None` or empty
sha skips the check); a failed stream always raises. -/
def leaseFileFails (verify : Bool) (d : FileDesc) (o : DlOutcome) : Bool :=
  !o.success
  || (match d.size with
      | some s => !(s == 0) && !(o.bytesWritten == s)
      | none => false)
  || (verify && (match d.sha with
      | some h => !h.isEmpty && !(lowerStr o.digest == lowerStr h)
      | none => false))

/-- Destination path `LOCAL_RECEIVED/<lote>/<nome>` (relative part). -/
def leaseDest (d : FileDesc) : Str := joinPath d.lote d.nome

/-- Whether `dest.exists()` holds in the `except` handler. -/
def leaseLeft (o : DlOutcome) : Bool := o.success || o.leftOnDisk

/-- The body of the download loop, as one step over the accumulator
`(ok_ids, fail_ids, saved, deleted)`. -/
def leaseStep (verify : Bool)
    (acc : List Nat × List Nat × List Str × List Str)
    (fo : FileDesc × DlOutcome) :
    List Nat × List Nat × List Str × List Str :=
  if leaseFileFails verify fo.1 fo.2 then
    (acc.1, acc.2.1 ++ [fo.1.id], acc.2.2.1,
      if leaseLeft fo.2 then acc.2.2.2 ++ [leaseDest fo.1] else acc.2.2.2)
  else
    (acc.1 ++ [fo.1.id], acc.2.1, acc.2.2.1 ++ [leaseDest fo.1], acc.2.2.2)

/-- `_pull_lease`: download every leased file, then POST confirm exactly
once with the collected ok/fail lists (also when both are empty). -/
def pullLease (verify : Bool) (files : List (FileDesc × DlOutcome)) : LeaseOutcome :=
  let r := files.foldl (leaseStep verify) ([], [], [], [])
  ⟨r.1, r.2.1, r.2.2.1, r.2.2.2, [(r.1, r.2.1)]⟩

/-! ## Derived observables and concrete inputs used by the theorems -/

/-- Sum of the monetary field over the records of one type. -/
def eefiS (tipo : Str) (regs : List Str) : Nat :=
  ((regs.filter (fun l => tipoOf l = tipo)).map eefiValorOf).sum

/-- Sum of the monetary field over the débito types 035/038/045. -/
def eefiSDeb (regs : List Str) : Nat :=
  ((regs.filter (fun l => tipoOf l ∈ [strOf "035", strOf "038", strOf "045"])).map
    eefiValorOf).sum

/-- The contribution of one raw EEVD line to the reconciliation sum for
the monetary field at index `idx`: non-zero only for type "01" records
with a non-empty PV at field 1. -/
def contrib01 (idx : Nat) (raw : Str) : Nat :=
  match (splitComma raw).get? 0, (splitComma raw).get? 1 with
  | some t, some pv =>
      if t = strOf "01" ∧ pv ≠ [] then to_centavos (fld (splitComma raw) idx) else 0
  | _, _ => 0

/-- The bucket of a key in an insertion-ordered association list
(`[]` when absent). -/
def lookupBucket {α : Type} (m : List (Str × List α)) (k : Str) : List α :=
  match m.find? (fun kv => kv.1 == k) with
  | some kv => kv.2
  | none => []

/-- Concrete EEFI mother file (simplified layout): header 030 with date
05102025, NSA 000041, the group PV field holding "XYZABCDEF", and one
040 record for PV 123456789 with value field 100. -/
def eefiExHeader : Str :=
  strOf "03005102025" ++ List.replicate 64 'H' ++ strOf "000041" ++ strOf "XYZABCDEF"

def eefiEx040 : Str := strOf "040123456789000000000000100"

def eefiExLines : List Str := [eefiExHeader, eefiEx040]

/-- A 040 line whose declared PV range fails, whose range [12,21) holds
123456789, and whose range [13,22) holds 234567890. -/
def c7Line040 : Str :=
  strOf "040" ++ List.replicate 8 ' ' ++ strOf "5123456789" ++ strOf "0xx"

/-- A lease descriptor declaring size 0 and no sha. -/
def c9Desc : FileDesc := ⟨7, strOf "L1", strOf "a.txt", some 0, none⟩

/-- A download that succeeded and wrote 5 bytes. -/
def c9Out : DlOutcome := ⟨true, 5, [], true⟩

/-- Concrete EEVD mother file: header 00 (matrix 000000001, date
07102025, NSA 000043), one 01 record for PV 123456789 (bruto 30000,
desconto 100, líquido 29900), one 011 cancellation for the same PV, and
the 04 trailer mirroring the 01 totals. -/
def eevdExHeader : Str := strOf "00,000000001,07102025,X,Y,Z,W,000043"

def eevdEx01 : Str := strOf "01,123456789,a,b,RV1,2,30000,100,29900,D"

def eevdEx011 : Str := strOf "011,123456789,c"

def eevdExTrailer : Str := strOf "04,000000001,1,3,30000,100,29900,0,0,0,8"

def eevdExLines : List Str := [eevdExHeader, eevdEx01, eevdEx011, eevdExTrailer]

/-- `contrib01` on an already-split record. -/
def partsContrib (idx : Nat) (parts : List Str) : Nat :=
  match parts.get? 0, parts.get? 1 with
  | some t, some pv =>
      if t = strOf "01" ∧ pv ≠ [] then to_centavos (fld parts idx) else 0
  | _, _ => 0

/-- Well-formedness of the EEVD parse state: the stats-dictionary keys
are distinct and every key outside the dictionary still maps to the
zero entry (the `defaultdict` default). -/
def eevdWF (st : EevdState) : Prop :=
  st.statKeys.Nodup ∧ ∀ k, k ∉ st.statKeys → st.stats k = eevdStatsInit

/-! ### C1: the EEVC reconciliation total sums RVs only -/

theorem rvSum_append (g : List Str) (l : Str) :
    rvSum (g ++ [l])
      = rvSum g + (if tipoOf l ∈ rvTypes then liquido_rv l else 0) := by
  unfold rvSum
  rw [List.filter_append]
  by_cases hl : tipoOf l ∈ rvTypes
  · simp [List.filter_cons, hl]
  · simp [List.filter_cons, hl]

theorem bumpGroup_rvSum_nonrv (g : Str → List Str) (t : Str → Nat)
    (cur l : Str) (h : ∀ pv, t pv = rvSum (g pv)) (hl : tipoOf l ∉ rvTypes) :
    ∀ pv, t pv = rvSum (bumpGroup g cur l pv) := by
  intro pv
  unfold bumpGroup
  by_cases hpv : pv = cur
  · rw [if_pos hpv, rvSum_append, if_neg hl, Nat.add_zero, h pv]
  · rw [if_neg hpv, h pv]

theorem routeCurrent_totals_invariant (st : EevcState) (l : Str)
    (h : ∀ pv, st.totals pv = rvSum (st.groups pv)) (hl : tipoOf l ∉ rvTypes) :
    ∀ pv, (routeCurrent st l).totals pv = rvSum ((routeCurrent st l).groups pv) := by
  intro pv
  unfold routeCurrent
  cases st.current with
  | none => exact h pv
  | some cur =>
      dsimp only
      by_cases hemp : cur.isEmpty
      · rw [if_pos hemp]; exact h pv
      · rw [if_neg hemp]
        exact bumpGroup_rvSum_nonrv st.groups st.totals cur l h hl pv

theorem eevcStep_totals_invariant (st : EevcState) (l : Str)
    (h : ∀ pv, st.totals pv = rvSum (st.groups pv)) :
    ∀ pv, (eevcStep st l).totals pv = rvSum ((eevcStep st l).groups pv) := by
  intro pv
  unfold eevcStep
  by_cases h002 : tipoOf l = strOf "002"
  · rw [if_pos h002]; exact h pv
  rw [if_neg h002]
  by_cases h004 : tipoOf l = strOf "004"
  · rw [if_pos h004]
    have hnotrv : tipoOf l ∉ rvTypes := by rw [h004]; decide
    exact bumpGroup_rvSum_nonrv st.groups st.totals (stripL (sliceL l 3 12)) l h hnotrv pv
  rw [if_neg h004]
  by_cases hrv : tipoOf l ∈ rvTypes
  · rw [if_pos hrv]
    cases st.current with
    | none => exact h pv
    | some cur =>
        dsimp only
        by_cases hemp : cur.isEmpty
        · rw [if_pos hemp]; exact h pv
        · rw [if_neg hemp]
          show (if pv = cur then st.totals pv + liquido_rv l else st.totals pv)
            = rvSum (bumpGroup st.groups cur l pv)
          unfold bumpGroup
          by_cases hpv : pv = cur
          · rw [if_pos hpv, if_pos hpv, rvSum_append, if_pos hrv, h pv]
          · rw [if_neg hpv, if_neg hpv, h pv]
  rw [if_neg hrv]
  by_cases hcv : tipoOf l ∈ cvTypes
  · rw [if_pos hcv]
    exact routeCurrent_totals_invariant st l h hrv pv
  rw [if_neg hcv]
  by_cases h026 : tipoOf l = strOf "026"
  · rw [if_pos h026]; exact h pv
  rw [if_neg h026]
  by_cases h028 : tipoOf l = strOf "028"
  · rw [if_pos h028]; exact h pv
  · rw [if_neg h028]
    exact routeCurrent_totals_invariant st l h hrv pv

theorem eevcFold_totals (lines : List Str) (st : EevcState)
    (h : ∀ pv, st.totals pv = rvSum (st.groups pv)) :
    ∀ pv, (lines.foldl eevcStep st).totals pv
      = rvSum ((lines.foldl eevcStep st).groups pv) := by
  induction lines generalizing st with
  | nil => exact h
  | cons l rest ih =>
      intro pv
      exact ih (eevcStep st l) (eevcStep_totals_invariant st l h) pv

theorem eevcParse_totals (lines : List Str) :
    ∀ pv, (eevcParse lines).totals pv = rvSum ((eevcParse lines).groups pv) := by
  exact eevcFold_totals lines eevcInit (by intro pv; simp [eevcInit, rvSum])

theorem startsWith026_eq (l : Str) :
    startsWithL (strOf "026") l = true ↔ tipoOf l = strOf "026" := by
  have h3 : (strOf "026").length = 3 := by decide
  unfold startsWithL tipoOf sliceL
  rw [h3]
  simp [beq_iff_eq]

theorem rvSum_cons (l : Str) (g : List Str) :
    rvSum (l :: g) = (if tipoOf l ∈ rvTypes then liquido_rv l else 0) + rvSum g := by
  unfold rvSum
  by_cases h : tipoOf l ∈ rvTypes <;> simp [List.filter_cons, h]

theorem rvSum_filter026 (g : List Str) :
    rvSum (g.filter (fun l => !startsWithL (strOf "026") l)) = rvSum g := by
  induction g with
  | nil => rfl
  | cons l rest ih =>
      rw [List.filter_cons]
      by_cases h : startsWithL (strOf "026") l = true
      · have ht : tipoOf l = strOf "026" := (startsWith026_eq l).mp h
        have hnot : tipoOf l ∉ rvTypes := by rw [ht]; decide
        simp [h, rvSum_cons, hnot, ih]
      · have h' : startsWithL (strOf "026") l = false := by
          cases hx : startsWithL (strOf "026") l
          · rfl
          · exact absurd hx h
        simp [h', rvSum_cons, ih]

theorem mem_childBody_of_cv (st : EevcState) (pv l : Str)
    (hmem : l ∈ st.groups pv) (hcv : tipoOf l ∈ cvTypes) :
    l ∈ eevcChildBody st pv := by
  unfold eevcChildBody
  refine List.mem_filter.mpr ⟨hmem, ?_⟩
  have hne : ¬ tipoOf l = strOf "026" := by
    intro he
    rw [he] at hcv
    exact absurd hcv (by decide)
  cases hx : startsWithL (strOf "026") l
  · rfl
  · exact absurd ((startsWith026_eq l).mp hx) hne

/-- **C1.** For every EEVC mother file, the reconciliation total kept for
each PV — and `soma_total_processado`, their sum over all children, the
value compared against the mother 028 trailer — equals the sum of the
"valor líquido" field (positions [114,129), via `_liquido_rv`) over
exactly the RV record types 006/010/016/022 routed to that PV; records
of types 008/012/014/018/024 are carried into the child body but
contribute nothing to that sum. -/
theorem claim_C1_eevc_rv_only (lines : List Str) :
    (∀ pv, (eevcParse lines).totals pv = rvSum (eevcChildBody (eevcParse lines) pv))
    ∧ (∀ pv l, l ∈ (eevcParse lines).groups pv → tipoOf l ∈ cvTypes →
        l ∈ eevcChildBody (eevcParse lines) pv)
    ∧ eevcSoma (eevcParse lines)
        = (((eevcParse lines).pvs).map
            (fun pv => rvSum (eevcChildBody (eevcParse lines) pv))).sum := by
  have hpt : ∀ pv, (eevcParse lines).totals pv
      = rvSum (eevcChildBody (eevcParse lines) pv) := by
    intro pv
    unfold eevcChildBody
    rw [rvSum_filter026]
    exact eevcParse_totals lines pv
  refine ⟨hpt, ?_, ?_⟩
  · intro pv l hm hcv
    exact mem_childBody_of_cv (eevcParse lines) pv l hm hcv
  · unfold eevcSoma
    have hf : (eevcParse lines).totals
        = fun pv => rvSum (eevcChildBody (eevcParse lines) pv) := funext hpt
    rw [hf]

/-- Witness for C1 at the concrete mother file `eevcExLines`: the PV
123456789 totals 12345 cents (its single RV 006) and the CV 008 line is
in the child body. -/
theorem claim_C1_eevc_rv_only_witness :
    (eevcParse eevcExLines).totals (strOf "123456789") = 12345
    ∧ strOf "008XYZ" ∈ eevcChildBody (eevcParse eevcExLines) (strOf "123456789") := by
  have h := claim_C1_eevc_rv_only eevcExLines
  constructor
  · rw [h.1 (strOf "123456789")]
    decide
  · exact h.2.1 (strOf "123456789") (strOf "008XYZ") (by decide) (by decide)

/-! ### Generic slice/padding lemmas -/

theorem sliceL_append_right (a rest : Str) (i j : Nat) (h : a.length ≤ i) :
    sliceL (a ++ rest) i j = sliceL rest (i - a.length) (j - a.length) := by
  unfold sliceL
  rw [List.drop_append_eq_append_drop]
  rw [List.drop_eq_nil_of_le h, List.nil_append]
  congr 1
  omega

theorem sliceL_append_exact (pre mid post : Str) :
    sliceL (pre ++ (mid ++ post)) pre.length (pre.length + mid.length) = mid := by
  unfold sliceL
  rw [List.drop_left, Nat.add_sub_cancel_left, List.take_left]

theorem sliceL_append_last (pre mid : Str) :
    sliceL (pre ++ mid) pre.length (pre.length + mid.length) = mid := by
  unfold sliceL
  rw [List.drop_left, Nat.add_sub_cancel_left, List.take_length]

theorem zfill_length_of_le (w : Nat) (s : Str) (h : s.length ≤ w) :
    (zfill w s).length = w := by
  unfold zfill
  rw [List.length_append, List.length_replicate]
  omega

theorem natToDigitsAux_length_le (fuel : Nat) :
    ∀ n k, n < fuel → n < 10 ^ k → 1 ≤ k → (natToDigitsAux fuel n).length ≤ k := by
  induction fuel with
  | zero => intro n k h; omega
  | succ f ih =>
      intro n k hf hn hk
      unfold natToDigitsAux
      by_cases h10 : n < 10
      · rw [if_pos h10]
        simpa using hk
      · rw [if_neg h10]
        rw [List.length_append]
        have hk2 : 2 ≤ k := by
          by_contra hcon
          have : k = 1 := by omega
          rw [this] at hn
          simp at hn
          omega
        have hdiv : n / 10 < 10 ^ (k - 1) := by
          have h1 : n < 10 ^ k := hn
          have h2 : 10 ^ k = 10 ^ (k - 1) * 10 := by
            have hh : k - 1 + 1 = k := by omega
            calc 10 ^ k = 10 ^ (k - 1 + 1) := by rw [hh]
              _ = 10 ^ (k - 1) * 10 := pow_succ 10 (k - 1)
          rw [h2] at h1
          omega
        have hfl : n / 10 < f := by
          have : n / 10 < n := Nat.div_lt_self (by omega) (by omega)
          omega
        have := ih (n / 10) (k - 1) hfl hdiv (by omega)
        simp only [List.length_cons, List.length_nil]
        omega

theorem natToDigits_length_le (n k : Nat) (hn : n < 10 ^ k) (hk : 1 ≤ k) :
    (natToDigits n).length ≤ k :=
  natToDigitsAux_length_le (n + 1) n k (Nat.lt_succ_self n) hn hk

theorem padNum_length (n w : Nat) (hn : n < 10 ^ w) (hw : 1 ≤ w) :
    (padNum n w).length = w :=
  zfill_length_of_le w (natToDigits n) (natToDigits_length_le n w hn hw)

/-! ### EEVC parse-state invariants -/

theorem routeCurrent_header (st : EevcState) (l : Str) :
    (routeCurrent st l).header = st.header := by
  unfold routeCurrent
  cases st.current with
  | none => rfl
  | some c =>
      dsimp only
      by_cases h : c.isEmpty
      · rw [if_pos h]
      · rw [if_neg h]

theorem routeCurrent_trailer (st : EevcState) (l : Str) :
    (routeCurrent st l).trailer = st.trailer := by
  unfold routeCurrent
  cases st.current with
  | none => rfl
  | some c =>
      dsimp only
      by_cases h : c.isEmpty
      · rw [if_pos h]
      · rw [if_neg h]

theorem eevcStep_tipos (st : EevcState) (l : Str)
    (h : (∀ x, st.header = some x → tipoOf x = strOf "002")
      ∧ (∀ x, st.trailer = some x → tipoOf x = strOf "028")) :
    (∀ x, (eevcStep st l).header = some x → tipoOf x = strOf "002")
    ∧ (∀ x, (eevcStep st l).trailer = some x → tipoOf x = strOf "028") := by
  unfold eevcStep
  by_cases h002 : tipoOf l = strOf "002"
  · rw [if_pos h002]
    refine ⟨?_, h.2⟩
    intro x hx
    cases hx
    exact h002
  rw [if_neg h002]
  by_cases h004 : tipoOf l = strOf "004"
  · rw [if_pos h004]; exact h
  rw [if_neg h004]
  by_cases hrv : tipoOf l ∈ rvTypes
  · rw [if_pos hrv]
    cases st.current with
    | none => exact h
    | some cur =>
        dsimp only
        by_cases hemp : cur.isEmpty
        · rw [if_pos hemp]; exact h
        · rw [if_neg hemp]; exact h
  rw [if_neg hrv]
  by_cases hcv : tipoOf l ∈ cvTypes
  · rw [if_pos hcv]
    refine ⟨?_, ?_⟩
    · intro x hx
      rw [routeCurrent_header] at hx
      exact h.1 x hx
    · intro x hx
      rw [routeCurrent_trailer] at hx
      exact h.2 x hx
  rw [if_neg hcv]
  by_cases h026 : tipoOf l = strOf "026"
  · rw [if_pos h026]; exact h
  rw [if_neg h026]
  by_cases h028 : tipoOf l = strOf "028"
  · rw [if_pos h028]
    refine ⟨h.1, ?_⟩
    intro x hx
    cases hx
    exact h028
  · rw [if_neg h028]
    refine ⟨?_, ?_⟩
    · intro x hx
      rw [routeCurrent_header] at hx
      exact h.1 x hx
    · intro x hx
      rw [routeCurrent_trailer] at hx
      exact h.2 x hx

theorem eevcParse_tipos (lines : List Str) :
    (∀ x, (eevcParse lines).header = some x → tipoOf x = strOf "002")
    ∧ (∀ x, (eevcParse lines).trailer = some x → tipoOf x = strOf "028") := by
  unfold eevcParse
  have hgen : ∀ (ls : List Str) (st : EevcState),
      ((∀ x, st.header = some x → tipoOf x = strOf "002")
        ∧ (∀ x, st.trailer = some x → tipoOf x = strOf "028")) →
      ((∀ x, (ls.foldl eevcStep st).header = some x → tipoOf x = strOf "002")
        ∧ (∀ x, (ls.foldl eevcStep st).trailer = some x → tipoOf x = strOf "028")) := by
    intro ls
    induction ls with
    | nil => intro st h; exact h
    | cons l rest ih =>
        intro st h
        exact ih (eevcStep st l) (eevcStep_tipos st l h)
  refine hgen lines eevcInit ⟨?_, ?_⟩ <;> intro x hx <;> cases hx

/-! ### C4: the synthesized 026 trailer -/

theorem repMerge (X : Str) :
    List.replicate 15 '0' ++ (List.replicate 6 '0' ++ (List.replicate 15 '0'
      ++ (List.replicate 15 '0' ++ (List.replicate 15 '0' ++ (List.replicate 15 '0'
      ++ (List.replicate 15 '0' ++ (List.replicate 15 '0' ++ X)))))))
    = List.replicate 111 '0' ++ X := by
  simp only [← List.append_assoc]
  congr 1

theorem build_trailer_026_group (pv : Str) (total : Nat) :
    build_trailer_026 pv total
      = strOf "026" ++ (zfill 9 pv ++ (List.replicate 111 '0'
          ++ (padNum total 15 ++ List.replicate 36 '0'))) := by
  unfold build_trailer_026
  simp only [show zfill 15 (strOf "0") = List.replicate 15 '0' from by decide,
    show zfill 6 (strOf "0") = List.replicate 6 '0' from by decide]
  simp only [List.append_assoc]
  rw [repMerge]
  rw [show List.replicate 15 '0' ++ (List.replicate 15 '0' ++ List.replicate 6 '0')
      = List.replicate 36 '0' from by decide]

theorem build_trailer_026_slices (pv : Str) (total : Nat)
    (hpv : pv.length ≤ 9) (htot : total < 10 ^ 15) :
    sliceL (build_trailer_026 pv total) 3 12 = zfill 9 pv
    ∧ sliceL (build_trailer_026 pv total) 12 123 = List.replicate 111 '0'
    ∧ sliceL (build_trailer_026 pv total) 123 138 = padNum total 15
    ∧ sliceL (build_trailer_026 pv total) 138 174 = List.replicate 36 '0'
    ∧ (build_trailer_026 pv total).length = 174 := by
  have hlen3 : (strOf "026").length = 3 := by decide
  have hlen9 : (zfill 9 pv).length = 9 := zfill_length_of_le 9 pv hpv
  have hpadlen : (padNum total 15).length = 15 :=
    padNum_length total 15 htot (by norm_num)
  rw [build_trailer_026_group]
  refine ⟨?_, ?_, ?_, ?_, ?_⟩
  · have h := sliceL_append_exact (strOf "026") (zfill 9 pv)
      (List.replicate 111 '0' ++ (padNum total 15 ++ List.replicate 36 '0'))
    rw [hlen3, hlen9] at h
    exact h
  · have h := sliceL_append_exact (strOf "026" ++ zfill 9 pv) (List.replicate 111 '0')
      (padNum total 15 ++ List.replicate 36 '0')
    rw [List.length_append, hlen3, hlen9, List.length_replicate] at h
    simpa [List.append_assoc] using h
  · have h := sliceL_append_exact
      (strOf "026" ++ (zfill 9 pv ++ List.replicate 111 '0')) (padNum total 15)
      (List.replicate 36 '0')
    rw [List.length_append, List.length_append, hlen3, hlen9,
      List.length_replicate, hpadlen] at h
    simpa [List.append_assoc] using h
  · have h := sliceL_append_last
      (strOf "026" ++ (zfill 9 pv ++ (List.replicate 111 '0' ++ padNum total 15)))
      (List.replicate 36 '0')
    rw [List.length_append, List.length_append, List.length_append, hlen3, hlen9,
      List.length_replicate, hpadlen, List.length_replicate] at h
    simpa [List.append_assoc] using h
  · simp only [List.length_append, hlen3, hlen9, List.length_replicate, hpadlen]

theorem startsWithL_self_append (p rest : Str) :
    startsWithL p (p ++ rest) = true := by
  unfold startsWithL
  rw [List.take_left]
  exact beq_self_eq_true p

theorem findRun_bound (len : Nat) (l : Str) (i : Nat)
    (h : findRun len l = some i) : i + len ≤ l.length := by
  unfold findRun at h
  have hi : i < l.length := List.mem_range.mp (List.mem_of_find?_eq_some h)
  have hrun := List.find?_some h
  unfold hasDigitRun at hrun
  have h1 : ((sliceL l i (i + len)).length == len) = true := by
    cases hx : ((sliceL l i (i + len)).length == len)
    · rw [hx] at hrun; simp at hrun
    · rfl
  have h2 : (sliceL l i (i + len)).length = len := eq_of_beq h1
  unfold sliceL at h2
  rw [List.length_take, List.length_drop] at h2
  rw [Nat.min_def] at h2
  split at h2 <;> omega

theorem take_append_of_le_len (n : Nat) (a b : Str) (h : n ≤ a.length) :
    (a ++ b).take n = a.take n := by
  rw [List.take_append_eq_append_take, Nat.sub_eq_zero_of_le h, List.take_zero,
    List.append_nil]

theorem tipoOf_rewrite_header (h pv : Str) :
    tipoOf (rewrite_header_with_pv h pv) = tipoOf h := by
  unfold rewrite_header_with_pv
  cases hf : findRun 15 h with
  | none => rfl
  | some i =>
      have hbound : i + 15 ≤ h.length := findRun_bound 15 h i hf
      have h2le : 3 ≤ (h.take (i + 6)).length := by
        rw [List.length_take]
        rw [Nat.min_def]
        split <;> omega
      have h1le : 3 ≤ (h.take (i + 6) ++ zfill 9 pv).length := by
        rw [List.length_append]
        omega
      unfold tipoOf sliceL
      simp only [List.drop_zero, Nat.sub_zero]
      rw [take_append_of_le_len 3 _ _ h1le, take_append_of_le_len 3 _ _ h2le,
        List.take_take, Nat.min_eq_left (by omega : 3 ≤ i + 6)]

theorem countP_filter_not (p : Str → Bool) (l : List Str) :
    (l.filter (fun x => !p x)).countP p = 0 := by
  rw [List.countP_eq_zero]
  intro a ha
  have := (List.mem_filter.mp ha).2
  simp at this
  simp [this]

/-- **C4 counterexample.**  At the concrete mother file `eevcExLines`
(one PV, RV total 12345 cents) the synthesized 026 trailer does NOT
carry the zero-padded total at positions [124,138) — that slice is only
14 characters — while the field does sit at [123,138). -/
theorem claim_C4_counterexample :
    (eevcParse eevcExLines).totals (strOf "123456789") = 12345
    ∧ sliceL (build_trailer_026 (strOf "123456789") 12345) 124 138 ≠ padNum 12345 15
    ∧ sliceL (build_trailer_026 (strOf "123456789") 12345) 123 138 = padNum 12345 15 := by
  refine ⟨by decide, by decide, by decide⟩

/-- **C4 (amended).**  For every EEVC child: exactly one line of the
child starts with "026" (the synthesized trailer — the original per-PV
026 lines are dropped); the mother 028 trailer is appended verbatim as
the last line; and in the synthesized trailer the PV sits at [3,12), all
monetary/counter fields in [12,123) and [138,174) are zeros, and the
"total líquido" (the PV's summed RV líquido, zero-padded to 15) occupies
positions [123,138) — i.e. manual positions 124–138 1-based — for a PV
of at most 9 characters and a total below 10^15. -/
theorem claim_C4_eevc_trailer026 (lines : List Str) (pv header trailer : Str)
    (hh : (eevcParse lines).header = some header)
    (ht : (eevcParse lines).trailer = some trailer)
    (hpv : pv.length ≤ 9)
    (htot : (eevcParse lines).totals pv < 10 ^ 15) :
    ((eevcChildLines (eevcParse lines) pv header trailer).countP
        (fun l => startsWithL (strOf "026") l)) = 1
    ∧ (eevcChildLines (eevcParse lines) pv header trailer).getLast? = some trailer
    ∧ sliceL (build_trailer_026 pv ((eevcParse lines).totals pv)) 3 12 = zfill 9 pv
    ∧ sliceL (build_trailer_026 pv ((eevcParse lines).totals pv)) 12 123
        = List.replicate 111 '0'
    ∧ sliceL (build_trailer_026 pv ((eevcParse lines).totals pv)) 123 138
        = padNum ((eevcParse lines).totals pv) 15
    ∧ sliceL (build_trailer_026 pv ((eevcParse lines).totals pv)) 138 174
        = List.replicate 36 '0'
    ∧ (build_trailer_026 pv ((eevcParse lines).totals pv)).length = 174 := by
  have hslices := build_trailer_026_slices pv ((eevcParse lines).totals pv) hpv htot
  have hhdr : tipoOf header = strOf "002" := (eevcParse_tipos lines).1 header hh
  have htrl : tipoOf trailer = strOf "028" := (eevcParse_tipos lines).2 trailer ht
  refine ⟨?_, ?_, hslices.1, hslices.2.1, hslices.2.2.1, hslices.2.2.2.1, hslices.2.2.2.2⟩
  · unfold eevcChildLines
    have h1 : startsWithL (strOf "026") (rewrite_header_with_pv header pv) = false := by
      cases hx : startsWithL (strOf "026") (rewrite_header_with_pv header pv)
      · rfl
      · have := (startsWith026_eq _).mp hx
        rw [tipoOf_rewrite_header, hhdr] at this
        exact absurd this (by decide)
    have h2 : (eevcChildBody (eevcParse lines) pv).countP
        (fun l => startsWithL (strOf "026") l) = 0 := by
      unfold eevcChildBody
      exact countP_filter_not _ _
    have h3 : startsWithL (strOf "026")
        (build_trailer_026 pv ((eevcParse lines).totals pv)) = true := by
      rw [build_trailer_026_group]
      exact startsWithL_self_append _ _
    have h4 : startsWithL (strOf "026") trailer = false := by
      cases hx : startsWithL (strOf "026") trailer
      · rfl
      · have := (startsWith026_eq _).mp hx
        rw [htrl] at this
        exact absurd this (by decide)
    simp [List.countP_append, List.countP_cons, h1, h2, h3, h4]
  · unfold eevcChildLines
    rw [show (rewrite_header_with_pv header pv :: eevcChildBody (eevcParse lines) pv
        ++ [build_trailer_026 pv ((eevcParse lines).totals pv), trailer])
      = (rewrite_header_with_pv header pv :: eevcChildBody (eevcParse lines) pv
          ++ [build_trailer_026 pv ((eevcParse lines).totals pv)]) ++ [trailer] from by
        simp]
    exact List.getLast?_concat _

/-- Witness for C4 at the concrete file `eevcExLines`. -/
theorem claim_C4_eevc_trailer026_witness :
    ((eevcChildLines (eevcParse eevcExLines) (strOf "123456789")
        eevcExHeader eevcExTrailer).countP
      (fun l => startsWithL (strOf "026") l)) = 1 :=
  (claim_C4_eevc_trailer026 eevcExLines (strOf "123456789") eevcExHeader
    eevcExTrailer (by decide) (by decide) (by decide) (by decide)).1

/-! ### C9: the lease download loop -/

theorem pullLease_loop (verify : Bool) (files : List (FileDesc × DlOutcome)) :
    ∀ a b c d,
      files.foldl (leaseStep verify) (a, b, c, d)
        = (a ++ (files.filter (fun fo => !leaseFileFails verify fo.1 fo.2)).map
              (fun fo => fo.1.id),
           b ++ (files.filter (fun fo => leaseFileFails verify fo.1 fo.2)).map
              (fun fo => fo.1.id),
           c ++ (files.filter (fun fo => !leaseFileFails verify fo.1 fo.2)).map
              (fun fo => leaseDest fo.1),
           d ++ (files.filter (fun fo =>
                leaseFileFails verify fo.1 fo.2 && leaseLeft fo.2)).map
              (fun fo => leaseDest fo.1)) := by
  induction files with
  | nil => intro a b c d; simp
  | cons f rest ih =>
      intro a b c d
      rw [List.foldl_cons]
      by_cases hf : leaseFileFails verify f.1 f.2
      · by_cases hl : leaseLeft f.2
        · rw [show leaseStep verify (a, b, c, d) f
              = (a, b ++ [f.1.id], c, d ++ [leaseDest f.1]) from by
            unfold leaseStep
            rw [if_pos hf, if_pos hl]]
          rw [ih a (b ++ [f.1.id]) c (d ++ [leaseDest f.1])]
          simp [List.filter_cons, hf, hl]
        · rw [show leaseStep verify (a, b, c, d) f
              = (a, b ++ [f.1.id], c, d) from by
            unfold leaseStep
            rw [if_pos hf, if_neg hl]]
          rw [ih a (b ++ [f.1.id]) c d]
          simp [List.filter_cons, hf, hl]
      · rw [show leaseStep verify (a, b, c, d) f
            = (a ++ [f.1.id], b, c ++ [leaseDest f.1], d) from by
          unfold leaseStep
          rw [if_neg hf]]
        rw [ih (a ++ [f.1.id]) b (c ++ [leaseDest f.1]) d]
        simp [List.filter_cons, hf]

/-- **C9 (amended).**  In a lease-mode pull cycle, a leased file lands in
`fail_ids` (and its partial file is deleted when present on disk) exactly
when the stream failed, or a *non-zero* declared size differs from the
byte count, or — with verification enabled — a *non-empty* declared
sha256 differs (lowercased) from the file digest; a declared size of 0
or an empty sha disables the corresponding check.  All other leased
files land in `ok_ids`, and exactly one confirm request is posted, with
the collected `ok_ids`/`fail_ids`, also when both lists are empty. -/
theorem claim_C9_pull_lease (verify : Bool) (files : List (FileDesc × DlOutcome)) :
    (pullLease verify files).failIds
      = (files.filter (fun fo => leaseFileFails verify fo.1 fo.2)).map
          (fun fo => fo.1.id)
    ∧ (pullLease verify files).okIds
      = (files.filter (fun fo => !leaseFileFails verify fo.1 fo.2)).map
          (fun fo => fo.1.id)
    ∧ (pullLease verify files).deleted
      = (files.filter (fun fo => leaseFileFails verify fo.1 fo.2 && leaseLeft fo.2)).map
          (fun fo => leaseDest fo.1)
    ∧ (pullLease verify files).confirms
      = [((pullLease verify files).okIds, (pullLease verify files).failIds)] := by
  unfold pullLease
  rw [pullLease_loop verify files [] [] [] []]
  refine ⟨by simp, by simp, by simp, by simp⟩

/-- **C9 counterexample.**  A descriptor declaring size 0 whose download
wrote 5 bytes: the byte count differs from the declared size, yet the
code records the id in `ok_ids`, not `fail_ids`, and deletes nothing. -/
theorem claim_C9_counterexample :
    (pullLease true [(c9Desc, c9Out)]).okIds = [7]
    ∧ (pullLease true [(c9Desc, c9Out)]).failIds = []
    ∧ (pullLease true [(c9Desc, c9Out)]).deleted = []
    ∧ c9Out.bytesWritten ≠ (c9Desc.size.getD 99) := by
  refine ⟨by decide, by decide, by decide, by decide⟩

/-! ### C3: the EEFI per-PV totals -/

theorem eefiS_cons (tipo l : Str) (regs : List Str) :
    eefiS tipo (l :: regs)
      = (if tipoOf l = tipo then eefiValorOf l else 0) + eefiS tipo regs := by
  unfold eefiS
  by_cases h : tipoOf l = tipo <;> simp [List.filter_cons, h]

theorem eefiSDeb_cons (l : Str) (regs : List Str) :
    eefiSDeb (l :: regs)
      = (if tipoOf l ∈ [strOf "035", strOf "038", strOf "045"] then eefiValorOf l else 0)
        + eefiSDeb regs := by
  unfold eefiSDeb
  by_cases h : tipoOf l ∈ [strOf "035", strOf "038", strOf "045"]
  · have h' : tipoOf l = strOf "035" ∨ tipoOf l = strOf "038" ∨ tipoOf l = strOf "045" := by
      simpa using h
    simp [List.filter_cons, h, h']
  · have h' : ¬(tipoOf l = strOf "035" ∨ tipoOf l = strOf "038" ∨ tipoOf l = strOf "045") := by
      simpa using h
    simp [List.filter_cons, h, h']

theorem eefiAggFold (regs : List Str) : ∀ t : EefiTot,
    (regs.foldl eefiAggStep t).vCred = t.vCred + eefiS (strOf "034") regs
    ∧ (regs.foldl eefiAggStep t).vAnt = t.vAnt + eefiS (strOf "036") regs
    ∧ (regs.foldl eefiAggStep t).vAjCred = t.vAjCred + eefiS (strOf "043") regs
    ∧ (regs.foldl eefiAggStep t).vAjDeb = t.vAjDeb + eefiSDeb regs := by
  induction regs with
  | nil =>
      intro t
      simp [eefiS, eefiSDeb]
  | cons l rest ih =>
      intro t
      simp only [List.foldl_cons]
      by_cases h1 : tipoOf l = strOf "034"
      · have hne2 : ¬ tipoOf l = strOf "036" := fun hc =>
          absurd (h1.symm.trans hc) (by decide)
        have hne3 : ¬ tipoOf l = strOf "043" := fun hc =>
          absurd (h1.symm.trans hc) (by decide)
        have hne4 : ¬ tipoOf l ∈ [strOf "035", strOf "038", strOf "045"] := by
          rw [h1]; decide
        have e : eefiAggStep t l
            = ⟨t.qtdCred + 1, t.vCred + eefiValorOf l, t.qtdAnt, t.vAnt,
                t.qtdAjCred, t.vAjCred, t.qtdAjDeb, t.vAjDeb⟩ := by
          unfold eefiAggStep
          rw [if_pos h1]
        rw [e]
        have hrec := ih ⟨t.qtdCred + 1, t.vCred + eefiValorOf l, t.qtdAnt, t.vAnt,
          t.qtdAjCred, t.vAjCred, t.qtdAjDeb, t.vAjDeb⟩
        refine ⟨?_, ?_, ?_, ?_⟩
        · rw [hrec.1, eefiS_cons, if_pos h1]; dsimp; omega
        · rw [hrec.2.1, eefiS_cons, if_neg hne2]; dsimp; omega
        · rw [hrec.2.2.1, eefiS_cons, if_neg hne3]; dsimp; omega
        · rw [hrec.2.2.2, eefiSDeb_cons, if_neg hne4]; dsimp; omega
      by_cases h2 : tipoOf l = strOf "036"
      · have hne1 : ¬ tipoOf l = strOf "034" := h1
        have hne3 : ¬ tipoOf l = strOf "043" := fun hc =>
          absurd (h2.symm.trans hc) (by decide)
        have hne4 : ¬ tipoOf l ∈ [strOf "035", strOf "038", strOf "045"] := by
          rw [h2]; decide
        have e : eefiAggStep t l
            = ⟨t.qtdCred, t.vCred, t.qtdAnt + 1, t.vAnt + eefiValorOf l,
                t.qtdAjCred, t.vAjCred, t.qtdAjDeb, t.vAjDeb⟩ := by
          unfold eefiAggStep
          rw [if_neg h1, if_pos h2]
        rw [e]
        have hrec := ih ⟨t.qtdCred, t.vCred, t.qtdAnt + 1, t.vAnt + eefiValorOf l,
          t.qtdAjCred, t.vAjCred, t.qtdAjDeb, t.vAjDeb⟩
        refine ⟨?_, ?_, ?_, ?_⟩
        · rw [hrec.1, eefiS_cons, if_neg hne1]; dsimp; omega
        · rw [hrec.2.1, eefiS_cons, if_pos h2]; dsimp; omega
        · rw [hrec.2.2.1, eefiS_cons, if_neg hne3]; dsimp; omega
        · rw [hrec.2.2.2, eefiSDeb_cons, if_neg hne4]; dsimp; omega
      by_cases h3 : tipoOf l = strOf "043"
      · have hne4 : ¬ tipoOf l ∈ [strOf "035", strOf "038", strOf "045"] := by
          rw [h3]; decide
        have e : eefiAggStep t l
            = ⟨t.qtdCred, t.vCred, t.qtdAnt, t.vAnt,
                t.qtdAjCred + 1, t.vAjCred + eefiValorOf l, t.qtdAjDeb, t.vAjDeb⟩ := by
          unfold eefiAggStep
          rw [if_neg h1, if_neg h2, if_pos h3]
        rw [e]
        have hrec := ih ⟨t.qtdCred, t.vCred, t.qtdAnt, t.vAnt,
          t.qtdAjCred + 1, t.vAjCred + eefiValorOf l, t.qtdAjDeb, t.vAjDeb⟩
        refine ⟨?_, ?_, ?_, ?_⟩
        · rw [hrec.1, eefiS_cons, if_neg h1]; dsimp; omega
        · rw [hrec.2.1, eefiS_cons, if_neg h2]; dsimp; omega
        · rw [hrec.2.2.1, eefiS_cons, if_pos h3]; dsimp; omega
        · rw [hrec.2.2.2, eefiSDeb_cons, if_neg hne4]; dsimp; omega
      by_cases h4 : tipoOf l ∈ [strOf "035", strOf "038", strOf "045"]
      · have e : eefiAggStep t l
            = ⟨t.qtdCred, t.vCred, t.qtdAnt, t.vAnt,
                t.qtdAjCred, t.vAjCred, t.qtdAjDeb + 1, t.vAjDeb + eefiValorOf l⟩ := by
          unfold eefiAggStep
          rw [if_neg h1, if_neg h2, if_neg h3, if_pos h4]
        rw [e]
        have hrec := ih ⟨t.qtdCred, t.vCred, t.qtdAnt, t.vAnt,
          t.qtdAjCred, t.vAjCred, t.qtdAjDeb + 1, t.vAjDeb + eefiValorOf l⟩
        refine ⟨?_, ?_, ?_, ?_⟩
        · rw [hrec.1, eefiS_cons, if_neg h1]; dsimp; omega
        · rw [hrec.2.1, eefiS_cons, if_neg h2]; dsimp; omega
        · rw [hrec.2.2.1, eefiS_cons, if_neg h3]; dsimp; omega
        · rw [hrec.2.2.2, eefiSDeb_cons, if_pos h4]; dsimp; omega
      · have e : eefiAggStep t l = t := by
          unfold eefiAggStep
          rw [if_neg h1, if_neg h2, if_neg h3, if_neg h4]
        rw [e]
        have hrec := ih t
        refine ⟨?_, ?_, ?_, ?_⟩
        · rw [hrec.1, eefiS_cons, if_neg h1]; omega
        · rw [hrec.2.1, eefiS_cons, if_neg h2]; omega
        · rw [hrec.2.2.1, eefiS_cons, if_neg h3]; omega
        · rw [hrec.2.2.2, eefiSDeb_cons, if_neg h4]; omega

/-- **C3 (amended).**  For every EEFI bucket, the per-PV reconciliation
total equals cred_norm + antecipação + ajuste_cred − ajuste_deb where
cred_norm accumulates the value field of 034 records ONLY (040 records
are carried into the child but are never summed, in either layout mode);
antecipação accumulates 036, ajuste_cred accumulates 043, and ajuste_deb
accumulates 035, 038 and 045. -/
theorem claim_C3_eefi_totais (regs : List Str) :
    (eefiAgg regs).vCred = eefiS (strOf "034") regs
    ∧ (eefiAgg regs).vAnt = eefiS (strOf "036") regs
    ∧ (eefiAgg regs).vAjCred = eefiS (strOf "043") regs
    ∧ (eefiAgg regs).vAjDeb = eefiSDeb regs
    ∧ eefiTotalPv (eefiAgg regs)
        = ((eefiS (strOf "034") regs : Int) + eefiS (strOf "036") regs
            + eefiS (strOf "043") regs) - eefiSDeb regs := by
  have h := eefiAggFold regs eefiTotInit
  have h1 : (eefiAgg regs).vCred = eefiS (strOf "034") regs := by
    unfold eefiAgg
    rw [h.1]
    simp [eefiTotInit]
  have h2 : (eefiAgg regs).vAnt = eefiS (strOf "036") regs := by
    unfold eefiAgg
    rw [h.2.1]
    simp [eefiTotInit]
  have h3 : (eefiAgg regs).vAjCred = eefiS (strOf "043") regs := by
    unfold eefiAgg
    rw [h.2.2.1]
    simp [eefiTotInit]
  have h4 : (eefiAgg regs).vAjDeb = eefiSDeb regs := by
    unfold eefiAgg
    rw [h.2.2.2]
    simp [eefiTotInit]
  refine ⟨h1, h2, h3, h4, ?_⟩
  unfold eefiTotalPv
  rw [h1, h2, h3, h4]

/-! ### C7: PV extraction for 040/045 -/

theorem appendAt_not_mem {α : Type} (m : List (Str × List α)) (k : Str) (v x : α)
    (hm : ∀ kv ∈ m, x ∉ kv.2) (hx : x ≠ v) :
    ∀ kv ∈ appendAt m k v, x ∉ kv.2 := by
  induction m with
  | nil =>
      intro kv hkv
      unfold appendAt at hkv
      rw [List.mem_singleton] at hkv
      subst hkv
      intro hmem
      rw [List.mem_singleton] at hmem
      exact hx hmem
  | cons p rest ih =>
      obtain ⟨k', vs⟩ := p
      intro kv hkv
      rw [show appendAt ((k', vs) :: rest) k v
          = if k' = k then (k', vs ++ [v]) :: rest else (k', vs) :: appendAt rest k v
        from rfl] at hkv
      by_cases hk : k' = k
      · rw [if_pos hk, List.mem_cons] at hkv
        cases hkv with
        | inl he =>
            subst he
            intro hmem
            rw [List.mem_append, List.mem_singleton] at hmem
            cases hmem with
            | inl h2 => exact hm (k', vs) (List.mem_cons_self _ _) h2
            | inr h2 => exact hx h2
        | inr he => exact hm kv (List.mem_cons_of_mem _ he)
      · rw [if_neg hk, List.mem_cons] at hkv
        cases hkv with
        | inl he =>
            subst he
            exact hm (k', vs) (List.mem_cons_self _ _)
        | inr he =>
            exact ih (fun q hq => hm q (List.mem_cons_of_mem _ hq)) kv he

theorem eefiPvMap_skip_aux (ln : Str) (hdet : tipoOf ln ∈ eefiDetailTypes)
    (hnone : extract_pv ln (tipoOf ln) = none) :
    ∀ (ls : List Str) (completo : Bool) (m : List (Str × List Str)),
      (∀ kv ∈ m, ln ∉ kv.2) →
      ∀ kv ∈ ls.foldl (eefiMapStep completo) m, ln ∉ kv.2 := by
  intro ls
  induction ls with
  | nil => intro c m hm; exact hm
  | cons l rest ih =>
      intro c m hm
      rw [List.foldl_cons]
      apply ih
      unfold eefiMapStep
      by_cases hA : tipoOf l = strOf "030" ∨ tipoOf l = strOf "052"
      · rw [if_pos hA]; exact hm
      rw [if_neg hA]
      by_cases hB : c = true ∧ tipoOf l = strOf "032"
      · rw [if_pos hB]
        cases hx : extract_pv l (strOf "032") with
        | none => exact hm
        | some pv =>
            refine appendAt_not_mem m pv l ln hm ?_
            intro heq
            rw [heq, hB.2] at hdet
            exact absurd hdet (by decide)
      rw [if_neg hB]
      by_cases hC : tipoOf l ∈ eefiDetailTypes
      · rw [if_pos hC]
        cases hx : extract_pv l (tipoOf l) with
        | none => exact hm
        | some pv =>
            refine appendAt_not_mem m pv l ln hm ?_
            intro heq
            rw [← heq, hnone] at hx
            exact Option.noConfusion hx
      · rw [if_neg hC]; exact hm

/-- **C7 (amended).**  Records 040 and 045 are routed by trying the
declared PV range [3,12) first; on failure, type 045 tries the
alternatives [12,21), [13,22), [22,31), [3,12) in order, while type 040
tries only [13,22) then [22,31); the last resort for both is the first
nine-digit run within the first 60 bytes; a record yielding no PV is
excluded from every child. -/
theorem claim_C7_eefi_extract :
    (∀ l, extract_pv l (strOf "045") = claimExtractPv l (strOf "045"))
    ∧ (∀ l tipo, tipo = strOf "040" ∨ tipo = strOf "045" →
        nineDigits (stripL (sliceL l 3 12)) = true →
        extract_pv l tipo = some (stripL (sliceL l 3 12)))
    ∧ (∀ l, nineDigits (stripL (sliceL l 3 12)) = false →
        nineDigits (stripL (sliceL l 13 22)) = true →
        extract_pv l (strOf "040") = some (stripL (sliceL l 13 22)))
    ∧ (∀ l, nineDigits (stripL (sliceL l 3 12)) = false →
        nineDigits (stripL (sliceL l 13 22)) = false →
        nineDigits (stripL (sliceL l 22 31)) = true →
        extract_pv l (strOf "040") = some (stripL (sliceL l 22 31)))
    ∧ (∀ l i, nineDigits (stripL (sliceL l 3 12)) = false →
        nineDigits (stripL (sliceL l 13 22)) = false →
        nineDigits (stripL (sliceL l 22 31)) = false →
        findRun 9 (l.take 60) = some i →
        extract_pv l (strOf "040") = some (sliceL (l.take 60) i (i + 9)))
    ∧ (∀ l, nineDigits (stripL (sliceL l 3 12)) = false →
        nineDigits (stripL (sliceL l 13 22)) = false →
        nineDigits (stripL (sliceL l 22 31)) = false →
        findRun 9 (l.take 60) = none →
        extract_pv l (strOf "040") = none)
    ∧ (∀ lines ln completo kv, ln ∈ lines → tipoOf ln ∈ eefiDetailTypes →
        extract_pv ln (tipoOf ln) = none →
        kv ∈ eefiPvMap completo lines → ln ∉ kv.2) := by
  have hp40 : eefiHasPv (strOf "040") = true := by decide
  have hp45 : eefiHasPv (strOf "045") = true := by decide
  have halt40 : eefiAltRanges (strOf "040") = [(13, 22), (22, 31)] := by decide
  refine ⟨?_, ?_, ?_, ?_, ?_, ?_, ?_⟩
  · intro l
    unfold extract_pv claimExtractPv
    rw [show eefiAltRanges (strOf "045") = [(12, 21), (13, 22), (22, 31), (3, 12)]
      from by decide]
  · intro l tipo htipo h9
    have hp : eefiHasPv tipo = true := by
      cases htipo with
      | inl h => rw [h]; exact hp40
      | inr h => rw [h]; exact hp45
    unfold extract_pv
    rw [hp, h9]
    rfl
  · intro l h0 h1
    unfold extract_pv
    rw [hp40, h0, halt40]
    simp only [Bool.and_false, Bool.false_eq_true, if_false]
    have hfind : List.find? (fun r : Nat × Nat => nineDigits (stripL (sliceL l r.1 r.2)))
        [(13, 22), (22, 31)] = some (13, 22) :=
      List.find?_cons_of_pos _ h1
    rw [hfind]
  · intro l h0 h1 h2
    unfold extract_pv
    rw [hp40, h0, halt40]
    simp only [Bool.and_false, Bool.false_eq_true, if_false]
    have hfind2 : List.find? (fun r : Nat × Nat => nineDigits (stripL (sliceL l r.1 r.2)))
        [(22, 31)] = some (22, 31) :=
      List.find?_cons_of_pos _ h2
    have hfind : List.find? (fun r : Nat × Nat => nineDigits (stripL (sliceL l r.1 r.2)))
        [(13, 22), (22, 31)] = some (22, 31) := by
      rw [List.find?_cons_of_neg _ (by simp [h1]), hfind2]
    rw [hfind]
  · intro l i h0 h1 h2 hrun
    unfold extract_pv
    rw [hp40, h0, halt40]
    simp only [Bool.and_false, Bool.false_eq_true, if_false]
    have hfind : List.find? (fun r : Nat × Nat => nineDigits (stripL (sliceL l r.1 r.2)))
        [(13, 22), (22, 31)] = none := by
      rw [List.find?_cons_of_neg _ (by simp [h1]), List.find?_cons_of_neg _ (by simp [h2]),
        List.find?_nil]
    rw [hfind, hrun]
  · intro l h0 h1 h2 hrun
    unfold extract_pv
    rw [hp40, h0, halt40]
    simp only [Bool.and_false, Bool.false_eq_true, if_false]
    have hfind : List.find? (fun r : Nat × Nat => nineDigits (stripL (sliceL l r.1 r.2)))
        [(13, 22), (22, 31)] = none := by
      rw [List.find?_cons_of_neg _ (by simp [h1]), List.find?_cons_of_neg _ (by simp [h2]),
        List.find?_nil]
    rw [hfind, hrun]
  · intro lines ln completo kv hmem hdet hnone hkv
    exact eefiPvMap_skip_aux ln hdet hnone lines completo []
      (by intro q hq; exact absurd hq (List.not_mem_nil q)) kv hkv

/-- Witness for C7: the declared-range case at the concrete 040 record
of `eefiExLines`. -/
theorem claim_C7_eefi_extract_witness :
    extract_pv eefiEx040 (strOf "040") = some (stripL (sliceL eefiEx040 3 12))
    ∧ stripL (sliceL eefiEx040 3 12) = strOf "123456789" :=
  ⟨claim_C7_eefi_extract.2.1 eefiEx040 (strOf "040") (Or.inl rfl) (by decide), by decide⟩

/-- **C7 counterexample.**  A 040 record whose declared range fails,
with nine digits at [12,21) and different nine digits at [13,22): the
code returns the [13,22) PV, while the claim's shared alternative list
would return the [12,21) PV. -/
theorem claim_C7_counterexample :
    extract_pv c7Line040 (strOf "040") = some (strOf "234567890")
    ∧ claimExtractPv c7Line040 (strOf "040") = some (strOf "123456789")
    ∧ extract_pv c7Line040 (strOf "040") ≠ claimExtractPv c7Line040 (strOf "040") := by
  refine ⟨by decide, by decide, by decide⟩

/-! ### C10: process_eefi never raises -/

/-- **C10.**  `process_eefi` is total: its value is always a full result
record (keys nsa, output_dir, files_generated, report_csv, sum_pvs,
total_052, ok, message are fields of `EefiResult`), and on the internal
failures — empty file, or a layout with neither 032 nor 040 records —
it returns the error record with ok = false, files_generated = [] and
nsa = "000000" instead of propagating the exception. -/
theorem claim_C10_eefi_never_raises (lines : List Str) (root : Str) :
    (lines = [] → processEefi lines root = eefiError (strOf "Arquivo vazio."))
    ∧ ((lines ≠ [] ∧ (∀ ln ∈ lines, startsWithL (strOf "032") ln = false)
        ∧ (∀ ln ∈ lines, startsWithL (strOf "040") ln = false)) →
      processEefi lines root
        = eefiError (strOf "Layout nao reconhecido: nao ha 032 nem 040."))
    ∧ (∀ m, (eefiError m).ok = false ∧ (eefiError m).files_generated = []
        ∧ (eefiError m).nsa = strOf "000000") := by
  refine ⟨?_, ?_, ?_⟩
  · intro h
    subst h
    rfl
  · rintro ⟨hne, h32, h40⟩
    cases lines with
    | nil => exact absurd rfl hne
    | cons hd tl =>
        have t32 : (hd :: tl).any (fun ln => startsWithL (strOf "032") ln) = false := by
          rw [List.any_eq_false]
          intro x hx
          simp [h32 x hx]
        have t40 : (hd :: tl).any (fun ln => startsWithL (strOf "040") ln) = false := by
          rw [List.any_eq_false]
          intro x hx
          simp [h40 x hx]
        unfold processEefi
        simp only [t32, t40]
        rfl
  · intro m
    exact ⟨rfl, rfl, rfl⟩

/-- Witness for C10 at the empty input. -/
theorem claim_C10_eefi_never_raises_witness :
    processEefi [] (strOf "output") = eefiError (strOf "Arquivo vazio.") :=
  (claim_C10_eefi_never_raises [] (strOf "output")).1 rfl

/-- **C3 counterexample.**  A simplified-layout mother file (no 032,
one 040 with value 100): the code's per-PV total — and `sum_pvs` of the
whole run — is 0, while the claim's formula (crediting the 040 value)
gives 100. -/
theorem claim_C3_counterexample :
    (eefiExLines.any (fun ln => startsWithL (strOf "032") ln)) = false
    ∧ (eefiExLines.any (fun ln => startsWithL (strOf "040") ln)) = true
    ∧ (processEefi eefiExLines (strOf "output")).sum_pvs = 0
    ∧ eefiTotalPv (eefiAgg [eefiEx040]) = 0
    ∧ eefiTotalPv (claimAgg040 [eefiEx040]) = 100
    ∧ (0 : Int) ≠ 100 := by
  refine ⟨by decide, by decide, by decide, by decide, by decide, by decide⟩

/-! ### C2: EEVD cancellations (011) -/

theorem lookupBucket_cons {α : Type} (a : Str) (b : List α)
    (m : List (Str × List α)) (k : Str) :
    lookupBucket ((a, b) :: m) k
      = if (a == k) = true then b else lookupBucket m k := by
  unfold lookupBucket
  by_cases h : (a == k) = true
  · have hf : List.find? (fun kv : Str × List α => kv.1 == k) ((a, b) :: m)
        = some (a, b) := List.find?_cons_of_pos _ h
    rw [if_pos h, hf]
  · have hf : List.find? (fun kv : Str × List α => kv.1 == k) ((a, b) :: m)
        = List.find? (fun kv : Str × List α => kv.1 == k) m :=
      List.find?_cons_of_neg _ h
    rw [if_neg h, hf]

theorem lookupBucket_appendAt {α : Type} (m : List (Str × List α)) (k k' : Str)
    (v : α) :
    lookupBucket (appendAt m k v) k'
      = if k' = k then lookupBucket m k' ++ [v] else lookupBucket m k' := by
  induction m with
  | nil =>
      show lookupBucket [(k, [v])] k' = _
      rw [lookupBucket_cons]
      by_cases h : k' = k
      · subst h
        simp [lookupBucket]
      · have hb : ¬ (k == k') = true := fun hc => h (eq_of_beq hc).symm
        rw [if_neg hb, if_neg h]
  | cons p rest ih =>
      obtain ⟨k0, vs⟩ := p
      rw [show appendAt ((k0, vs) :: rest) k v
          = if k0 = k then (k0, vs ++ [v]) :: rest else (k0, vs) :: appendAt rest k v
        from rfl]
      by_cases h0 : k0 = k
      · rw [if_pos h0, lookupBucket_cons, lookupBucket_cons]
        by_cases hk : k' = k
        · subst hk
          subst h0
          simp
        · have hb : ¬ (k0 == k') = true := fun hc =>
            hk (((eq_of_beq hc).symm).trans h0)
          rw [if_neg hk, if_neg hb, if_neg hb]
      · rw [if_neg h0, lookupBucket_cons, lookupBucket_cons, ih]
        by_cases hk : k' = k
        · by_cases hb : k0 = k'
          · exact absurd (hb.trans hk) h0
          · have hbe : ¬ (k0 == k') = true := fun hc => hb (eq_of_beq hc)
            rw [if_neg hbe, if_pos hk, if_pos hk, if_neg hbe]
        · by_cases hb : k0 = k'
          · have hbe : (k0 == k') = true := by
              rw [hb]
              exact beq_self_eq_true k'
            rw [if_pos hbe, if_neg hk, if_pos hbe]
          · have hbe : ¬ (k0 == k') = true := fun hc => hb (eq_of_beq hc)
            rw [if_neg hbe, if_neg hk, if_neg hk, if_neg hbe]

theorem isEmpty_false_of_ne_nil {α : Type} (l : List α) (h : l ≠ []) :
    l.isEmpty = false := by
  cases l with
  | nil => exact absurd rfl h
  | cons a t => rfl

theorem eevdStep011_spec (st : EevdState) (parts : List Str) (pv : Str)
    (h0 : parts.get? 0 = some (strOf "011"))
    (h1 : parts.get? 1 = some pv) (hpv : pv ≠ []) :
    lookupBucket (eevdStepParts st parts).regs pv = lookupBucket st.regs pv ++ [parts]
    ∧ ((eevdStepParts st parts).stats pv).qtd_cv = (st.stats pv).qtd_cv + 1
    ∧ ((eevdStepParts st parts).stats pv).bruto = (st.stats pv).bruto
    ∧ ((eevdStepParts st parts).stats pv).desconto = (st.stats pv).desconto
    ∧ ((eevdStepParts st parts).stats pv).liquido = (st.stats pv).liquido := by
  cases parts with
  | nil => exact absurd h0 (by simp)
  | cons t rest =>
      have ht : t = strOf "011" := by
        simpa using h0
      subst ht
      unfold eevdStepParts
      dsimp only
      rw [if_neg (by decide : ¬ (strOf "011") = strOf "01"),
        if_pos (rfl : (strOf "011") = strOf "011")]
      unfold eevdStepCv
      rw [h1]
      dsimp only
      rw [isEmpty_false_of_ne_nil pv hpv]
      simp only [Bool.false_eq_true, if_false]
      refine ⟨?_, ?_, ?_, ?_, ?_⟩
      · rw [lookupBucket_appendAt, if_pos rfl]
      · unfold setStats
        rw [if_pos rfl]
      · unfold setStats
        rw [if_pos rfl]
      · unfold setStats
        rw [if_pos rfl]
      · unfold setStats
        rw [if_pos rfl]

theorem sum_ite_update (keys : List Str) (g : Str → Nat) (pv : Str) (b : Nat)
    (hnd : keys.Nodup) (hmem : pv ∈ keys) :
    (keys.map (fun k => if k = pv then g k + b else g k)).sum
      = (keys.map g).sum + b := by
  induction keys with
  | nil => cases hmem
  | cons a ks ih =>
      rw [List.map_cons, List.map_cons, List.sum_cons, List.sum_cons]
      by_cases ha : a = pv
      · rw [if_pos ha]
        have hnotin : pv ∉ ks := by
          rw [← ha]
          exact (List.nodup_cons.mp hnd).1
        have hrest : ks.map (fun k => if k = pv then g k + b else g k) = ks.map g := by
          apply List.map_congr_left
          intro x hx
          have hne : ¬ x = pv := by
            intro hc
            rw [hc] at hx
            exact hnotin hx
          rw [if_neg hne]
        rw [hrest]
        omega
      · rw [if_neg ha]
        have hmem' : pv ∈ ks := by
          cases List.mem_cons.mp hmem with
          | inl h => exact absurd h.symm ha
          | inr h => exact h
        rw [ih (List.nodup_cons.mp hnd).2 hmem']
        omega

theorem soma_setStats_insert (keys : List Str) (f : Str → EevdStats) (pv : Str)
    (s' : EevdStats) (proj : EevdStats → Nat) (b : Nat)
    (hnd : keys.Nodup) (hinit : pv ∉ keys → f pv = eevdStatsInit)
    (hinit0 : proj eevdStatsInit = 0)
    (hproj : proj s' = proj (f pv) + b) :
    ((insertKey keys pv).map (fun k => proj (setStats f pv s' k))).sum
      = (keys.map (fun k => proj (f k))).sum + b := by
  unfold insertKey
  by_cases hmem : pv ∈ keys
  · rw [if_pos hmem]
    have heq : (fun k => proj (setStats f pv s' k))
        = fun k => if k = pv then proj (f k) + b else proj (f k) := by
      funext k
      unfold setStats
      by_cases hk : k = pv
      · rw [if_pos hk, if_pos hk, hproj, hk]
      · rw [if_neg hk, if_neg hk]
    rw [heq]
    exact sum_ite_update keys (fun k => proj (f k)) pv b hnd hmem
  · rw [if_neg hmem, List.map_append, List.sum_append]
    have heq : keys.map (fun k => proj (setStats f pv s' k))
        = keys.map (fun k => proj (f k)) := by
      apply List.map_congr_left
      intro x hx
      unfold setStats
      have hne : ¬ x = pv := by
        intro hc
        rw [hc] at hx
        exact hmem hx
      rw [if_neg hne]
    have htail : ([pv].map (fun k => proj (setStats f pv s' k))).sum = b := by
      rw [List.map_singleton, List.sum_singleton]
      unfold setStats
      rw [if_pos rfl, hproj, hinit hmem, hinit0]
      omega
    rw [heq, htail]

theorem insertKey_nodup (keys : List Str) (pv : Str) (h : keys.Nodup) :
    (insertKey keys pv).Nodup := by
  unfold insertKey
  by_cases hmem : pv ∈ keys
  · rw [if_pos hmem]
    exact h
  · rw [if_neg hmem]
    rw [List.nodup_append]
    exact ⟨h, List.nodup_singleton pv, by simp [hmem]⟩

theorem not_mem_insertKey (keys : List Str) (pv k : Str)
    (h : k ∉ insertKey keys pv) : k ∉ keys ∧ k ≠ pv := by
  unfold insertKey at h
  by_cases hmem : pv ∈ keys
  · rw [if_pos hmem] at h
    exact ⟨h, fun hc => h (hc ▸ hmem)⟩
  · rw [if_neg hmem] at h
    rw [List.mem_append, List.mem_singleton] at h
    push_neg at h
    exact h

theorem setStats_insert_wf (keys : List Str) (f : Str → EevdStats) (pv : Str)
    (s' : EevdStats) (hnd : keys.Nodup)
    (hdef : ∀ k, k ∉ keys → f k = eevdStatsInit) :
    (insertKey keys pv).Nodup
    ∧ ∀ k, k ∉ insertKey keys pv → setStats f pv s' k = eevdStatsInit := by
  refine ⟨insertKey_nodup keys pv hnd, ?_⟩
  intro k hk
  obtain ⟨hk1, hk2⟩ := not_mem_insertKey keys pv k hk
  unfold setStats
  rw [if_neg hk2]
  exact hdef k hk1

theorem contrib01_eq (idx : Nat) (raw : Str) :
    contrib01 idx raw = partsContrib idx (splitComma raw) := rfl

theorem partsContrib_ne01 (idx : Nat) (t : Str) (rest : List Str)
    (h : ¬ t = strOf "01") : partsContrib idx (t :: rest) = 0 := by
  unfold partsContrib
  cases hg : (t :: rest).get? 1 with
  | none =>
      rw [show (t :: rest).get? 0 = some t from rfl]
  | some pv =>
      rw [show (t :: rest).get? 0 = some t from rfl]
      dsimp only
      rw [if_neg (fun hc : t = strOf "01" ∧ pv ≠ [] => h hc.1)]

theorem eevdSoma_proj_unchanged (st : EevdState) (regs' : List (Str × List (List Str)))
    (rv' : Str → Option Str) (cg' : Str → Nat) :
    eevdSomaBruto ⟨regs', st.stats, st.statKeys, rv', cg'⟩ = eevdSomaBruto st
    ∧ eevdSomaDesc ⟨regs', st.stats, st.statKeys, rv', cg'⟩ = eevdSomaDesc st
    ∧ eevdSomaLiq ⟨regs', st.stats, st.statKeys, rv', cg'⟩ = eevdSomaLiq st :=
  ⟨rfl, rfl, rfl⟩

/-- A cv-like update (append a record, bump `qtd_cv` of one PV, insert
the key) preserves well-formedness and all three monetary sums. -/
theorem eevdCvUpdate_soma_wf (st : EevdState) (pv : Str)
    (regs' : List (Str × List (List Str))) (rv' : Str → Option Str)
    (cg' : Str → Nat) (h : eevdWF st) :
    eevdWF ⟨regs',
        setStats st.stats pv { st.stats pv with qtd_cv := (st.stats pv).qtd_cv + 1 },
        insertKey st.statKeys pv, rv', cg'⟩
    ∧ eevdSomaBruto ⟨regs',
        setStats st.stats pv { st.stats pv with qtd_cv := (st.stats pv).qtd_cv + 1 },
        insertKey st.statKeys pv, rv', cg'⟩ = eevdSomaBruto st
    ∧ eevdSomaDesc ⟨regs',
        setStats st.stats pv { st.stats pv with qtd_cv := (st.stats pv).qtd_cv + 1 },
        insertKey st.statKeys pv, rv', cg'⟩ = eevdSomaDesc st
    ∧ eevdSomaLiq ⟨regs',
        setStats st.stats pv { st.stats pv with qtd_cv := (st.stats pv).qtd_cv + 1 },
        insertKey st.statKeys pv, rv', cg'⟩ = eevdSomaLiq st := by
  obtain ⟨hnd, hdef⟩ := h
  refine ⟨?_, ?_, ?_, ?_⟩
  · exact setStats_insert_wf st.statKeys st.stats pv _ hnd hdef
  · show ((insertKey st.statKeys pv).map
        (fun k => EevdStats.bruto (setStats st.stats pv
          { st.stats pv with qtd_cv := (st.stats pv).qtd_cv + 1 } k))).sum = _
    rw [soma_setStats_insert st.statKeys st.stats pv
      { st.stats pv with qtd_cv := (st.stats pv).qtd_cv + 1 } EevdStats.bruto 0 hnd
      (hdef pv) rfl rfl]
    rfl
  · show ((insertKey st.statKeys pv).map
        (fun k => EevdStats.desconto (setStats st.stats pv
          { st.stats pv with qtd_cv := (st.stats pv).qtd_cv + 1 } k))).sum = _
    rw [soma_setStats_insert st.statKeys st.stats pv
      { st.stats pv with qtd_cv := (st.stats pv).qtd_cv + 1 } EevdStats.desconto 0 hnd
      (hdef pv) rfl rfl]
    rfl
  · show ((insertKey st.statKeys pv).map
        (fun k => EevdStats.liquido (setStats st.stats pv
          { st.stats pv with qtd_cv := (st.stats pv).qtd_cv + 1 } k))).sum = _
    rw [soma_setStats_insert st.statKeys st.stats pv
      { st.stats pv with qtd_cv := (st.stats pv).qtd_cv + 1 } EevdStats.liquido 0 hnd
      (hdef pv) rfl rfl]
    rfl

theorem eevdStepCv_soma_wf (st : EevdState) (parts : List Str) (h : eevdWF st) :
    eevdWF (eevdStepCv st parts)
    ∧ eevdSomaBruto (eevdStepCv st parts) = eevdSomaBruto st
    ∧ eevdSomaDesc (eevdStepCv st parts) = eevdSomaDesc st
    ∧ eevdSomaLiq (eevdStepCv st parts) = eevdSomaLiq st := by
  unfold eevdStepCv
  cases hg : parts.get? 1 with
  | none => exact ⟨h, rfl, rfl, rfl⟩
  | some pv =>
      dsimp only
      by_cases hemp : pv.isEmpty = true
      · rw [if_pos hemp]
        exact ⟨h, rfl, rfl, rfl⟩
      · rw [if_neg hemp]
        exact eevdCvUpdate_soma_wf st pv _ _ _ h

theorem eevdRoute20_soma_wf (st : EevdState) (parts : List Str) (pv : Str)
    (h : eevdWF st) :
    eevdWF (eevdRoute20 st parts pv)
    ∧ eevdSomaBruto (eevdRoute20 st parts pv) = eevdSomaBruto st
    ∧ eevdSomaDesc (eevdRoute20 st parts pv) = eevdSomaDesc st
    ∧ eevdSomaLiq (eevdRoute20 st parts pv) = eevdSomaLiq st := by
  unfold eevdRoute20
  exact eevdCvUpdate_soma_wf st pv _ _ _ h

theorem eevdStep20_soma_wf (st : EevdState) (parts : List Str) (h : eevdWF st) :
    eevdWF (eevdStep20 st parts)
    ∧ eevdSomaBruto (eevdStep20 st parts) = eevdSomaBruto st
    ∧ eevdSomaDesc (eevdStep20 st parts) = eevdSomaDesc st
    ∧ eevdSomaLiq (eevdStep20 st parts) = eevdSomaLiq st := by
  unfold eevdStep20
  cases h3 : parts.get? 3 with
  | some r =>
      dsimp only
      by_cases hemp : r.isEmpty = true
      · rw [if_pos hemp]
        by_cases hlen : st.regs.length = 1
        · rw [if_pos hlen]
          exact eevdRoute20_soma_wf st parts _ h
        · rw [if_neg hlen]
          exact ⟨h, rfl, rfl, rfl⟩
      · rw [if_neg hemp]
        cases hrv : st.rvToPv r with
        | some pv =>
            dsimp only
            exact eevdRoute20_soma_wf st parts pv h
        | none =>
            dsimp only
            by_cases hlen : st.regs.length = 1
            · rw [if_pos hlen]
              exact eevdRoute20_soma_wf st parts _ h
            · rw [if_neg hlen]
              exact ⟨h, rfl, rfl, rfl⟩
  | none =>
      dsimp only
      cases h2 : parts.get? 2 with
      | some r =>
          dsimp only
          by_cases hemp : r.isEmpty = true
          · rw [if_pos hemp]
            by_cases hlen : st.regs.length = 1
            · rw [if_pos hlen]
              exact eevdRoute20_soma_wf st parts _ h
            · rw [if_neg hlen]
              exact ⟨h, rfl, rfl, rfl⟩
          · rw [if_neg hemp]
            cases hrv : st.rvToPv r with
            | some pv =>
                dsimp only
                exact eevdRoute20_soma_wf st parts pv h
            | none =>
                dsimp only
                by_cases hlen : st.regs.length = 1
                · rw [if_pos hlen]
                  exact eevdRoute20_soma_wf st parts _ h
                · rw [if_neg hlen]
                  exact ⟨h, rfl, rfl, rfl⟩
      | none =>
          dsimp only
          by_cases hlen : st.regs.length = 1
          · rw [if_pos hlen]
            exact eevdRoute20_soma_wf st parts _ h
          · rw [if_neg hlen]
            exact ⟨h, rfl, rfl, rfl⟩

theorem partsContrib_01 (idx : Nat) (rest : List Str) :
    partsContrib idx (strOf "01" :: rest)
      = match (strOf "01" :: rest).get? 1 with
        | some pv => if pv ≠ [] then to_centavos (fld (strOf "01" :: rest) idx) else 0
        | none => 0 := by
  unfold partsContrib
  cases hg : (strOf "01" :: rest).get? 1 with
  | none => rfl
  | some pv =>
      rw [show (strOf "01" :: rest).get? 0 = some (strOf "01") from rfl]
      dsimp only
      by_cases hpv : pv ≠ []
      · rw [if_pos (show strOf "01" = strOf "01" ∧ pv ≠ [] from ⟨rfl, hpv⟩), if_pos hpv]
      · rw [if_neg (show ¬ (strOf "01" = strOf "01" ∧ pv ≠ []) from fun hc => hpv hc.2),
          if_neg hpv]

theorem eevdStep01_soma_wf (st : EevdState) (parts : List Str) (h : eevdWF st) :
    eevdWF (eevdStep01 st parts)
    ∧ eevdSomaBruto (eevdStep01 st parts)
        = eevdSomaBruto st + (match parts.get? 1 with
            | some pv => if pv ≠ [] then to_centavos (fld parts 6) else 0
            | none => 0)
    ∧ eevdSomaDesc (eevdStep01 st parts)
        = eevdSomaDesc st + (match parts.get? 1 with
            | some pv => if pv ≠ [] then to_centavos (fld parts 7) else 0
            | none => 0)
    ∧ eevdSomaLiq (eevdStep01 st parts)
        = eevdSomaLiq st + (match parts.get? 1 with
            | some pv => if pv ≠ [] then to_centavos (fld parts 8) else 0
            | none => 0) := by
  unfold eevdStep01
  cases h4 : parts.get? 4 with
  | some rv =>
      dsimp only
      cases h1 : parts.get? 1 with
      | none => exact ⟨h, rfl, rfl, rfl⟩
      | some pv =>
          dsimp only
          by_cases hemp : pv.isEmpty = true
          · rw [if_pos hemp]
            have hpv : ¬ pv ≠ [] := by
              intro hc
              cases pv with
              | nil => exact hc rfl
              | cons c cs => simp at hemp
            rw [if_neg hpv, if_neg hpv, if_neg hpv]
            exact ⟨h, rfl, rfl, rfl⟩
          · rw [if_neg hemp]
            have hpv : pv ≠ [] := by
              intro hc
              subst hc
              exact hemp rfl
            rw [if_pos hpv, if_pos hpv, if_pos hpv]
            refine ⟨?_, ?_, ?_, ?_⟩
            · exact setStats_insert_wf st.statKeys st.stats pv _ h.1 h.2
            · show ((insertKey st.statKeys pv).map
                  (fun k => EevdStats.bruto (setStats st.stats pv _ k))).sum = _
              rw [soma_setStats_insert st.statKeys st.stats pv _ EevdStats.bruto
                (to_centavos (fld parts 6)) h.1 (h.2 pv) rfl rfl]
              rfl
            · show ((insertKey st.statKeys pv).map
                  (fun k => EevdStats.desconto (setStats st.stats pv _ k))).sum = _
              rw [soma_setStats_insert st.statKeys st.stats pv _ EevdStats.desconto
                (to_centavos (fld parts 7)) h.1 (h.2 pv) rfl rfl]
              rfl
            · show ((insertKey st.statKeys pv).map
                  (fun k => EevdStats.liquido (setStats st.stats pv _ k))).sum = _
              rw [soma_setStats_insert st.statKeys st.stats pv _ EevdStats.liquido
                (to_centavos (fld parts 8)) h.1 (h.2 pv) rfl rfl]
              rfl
  | none =>
      dsimp only
      cases h1 : parts.get? 1 with
      | none => exact ⟨h, rfl, rfl, rfl⟩
      | some pv =>
          dsimp only
          by_cases hemp : pv.isEmpty = true
          · rw [if_pos hemp]
            have hpv : ¬ pv ≠ [] := by
              intro hc
              cases pv with
              | nil => exact hc rfl
              | cons c cs => simp at hemp
            rw [if_neg hpv, if_neg hpv, if_neg hpv]
            exact ⟨h, rfl, rfl, rfl⟩
          · rw [if_neg hemp]
            have hpv : pv ≠ [] := by
              intro hc
              subst hc
              exact hemp rfl
            rw [if_pos hpv, if_pos hpv, if_pos hpv]
            refine ⟨?_, ?_, ?_, ?_⟩
            · exact setStats_insert_wf st.statKeys st.stats pv _ h.1 h.2
            · show ((insertKey st.statKeys pv).map
                  (fun k => EevdStats.bruto (setStats st.stats pv _ k))).sum = _
              rw [soma_setStats_insert st.statKeys st.stats pv _ EevdStats.bruto
                (to_centavos (fld parts 6)) h.1 (h.2 pv) rfl rfl]
              rfl
            · show ((insertKey st.statKeys pv).map
                  (fun k => EevdStats.desconto (setStats st.stats pv _ k))).sum = _
              rw [soma_setStats_insert st.statKeys st.stats pv _ EevdStats.desconto
                (to_centavos (fld parts 7)) h.1 (h.2 pv) rfl rfl]
              rfl
            · show ((insertKey st.statKeys pv).map
                  (fun k => EevdStats.liquido (setStats st.stats pv _ k))).sum = _
              rw [soma_setStats_insert st.statKeys st.stats pv _ EevdStats.liquido
                (to_centavos (fld parts 8)) h.1 (h.2 pv) rfl rfl]
              rfl

theorem eevdStepParts_soma_wf (st : EevdState) (parts : List Str) (h : eevdWF st) :
    eevdWF (eevdStepParts st parts)
    ∧ eevdSomaBruto (eevdStepParts st parts) = eevdSomaBruto st + partsContrib 6 parts
    ∧ eevdSomaDesc (eevdStepParts st parts) = eevdSomaDesc st + partsContrib 7 parts
    ∧ eevdSomaLiq (eevdStepParts st parts) = eevdSomaLiq st + partsContrib 8 parts := by
  cases parts with
  | nil => exact ⟨h, rfl, rfl, rfl⟩
  | cons t rest =>
      unfold eevdStepParts
      dsimp only
      by_cases h01 : t = strOf "01"
      · subst h01
        rw [if_pos rfl]
        have hx := eevdStep01_soma_wf ⟨st.regs, st.stats, st.statKeys, st.rvToPv,
          fun x => if x = strOf "01" then st.contagem x + 1 else st.contagem x⟩
          (strOf "01" :: rest) h
        refine ⟨hx.1, ?_, ?_, ?_⟩
        · rw [hx.2.1, partsContrib_01]
          rfl
        · rw [hx.2.2.1, partsContrib_01]
          rfl
        · rw [hx.2.2.2, partsContrib_01]
          rfl
      rw [if_neg h01]
      by_cases h011 : t = strOf "011"
      · rw [if_pos h011]
        have hx := eevdStepCv_soma_wf ⟨st.regs, st.stats, st.statKeys, st.rvToPv,
          fun x => if x = t then st.contagem x + 1 else st.contagem x⟩ (t :: rest) h
        refine ⟨hx.1, ?_, ?_, ?_⟩
        · rw [hx.2.1, partsContrib_ne01 6 t rest h01]
          rfl
        · rw [hx.2.2.1, partsContrib_ne01 7 t rest h01]
          rfl
        · rw [hx.2.2.2, partsContrib_ne01 8 t rest h01]
          rfl
      rw [if_neg h011]
      by_cases h0513 : t = strOf "05" ∨ t = strOf "13"
      · rw [if_pos h0513]
        have hx := eevdStepCv_soma_wf ⟨st.regs, st.stats, st.statKeys, st.rvToPv,
          fun x => if x = t then st.contagem x + 1 else st.contagem x⟩ (t :: rest) h
        refine ⟨hx.1, ?_, ?_, ?_⟩
        · rw [hx.2.1, partsContrib_ne01 6 t rest h01]
          rfl
        · rw [hx.2.2.1, partsContrib_ne01 7 t rest h01]
          rfl
        · rw [hx.2.2.2, partsContrib_ne01 8 t rest h01]
          rfl
      rw [if_neg h0513]
      by_cases h20 : t = strOf "20"
      · rw [if_pos h20]
        have hx := eevdStep20_soma_wf ⟨st.regs, st.stats, st.statKeys, st.rvToPv,
          fun x => if x = t then st.contagem x + 1 else st.contagem x⟩ (t :: rest) h
        refine ⟨hx.1, ?_, ?_, ?_⟩
        · rw [hx.2.1, partsContrib_ne01 6 t rest h01]
          rfl
        · rw [hx.2.2.1, partsContrib_ne01 7 t rest h01]
          rfl
        · rw [hx.2.2.2, partsContrib_ne01 8 t rest h01]
          rfl
      rw [if_neg h20]
      cases hA : eevdAdjIdx t with
      | none => exact ⟨h, by rw [partsContrib_ne01 6 t rest h01]; rfl,
          by rw [partsContrib_ne01 7 t rest h01]; rfl, by rw [partsContrib_ne01 8 t rest h01]; rfl⟩
      | some i =>
          dsimp only
          cases hgi : (t :: rest).get? i with
          | none => exact ⟨h, by rw [partsContrib_ne01 6 t rest h01]; rfl,
              by rw [partsContrib_ne01 7 t rest h01]; rfl, by rw [partsContrib_ne01 8 t rest h01]; rfl⟩
          | some pv =>
              dsimp only
              by_cases hemp : pv.isEmpty = true
              · rw [if_pos hemp]
                exact ⟨h, by rw [partsContrib_ne01 6 t rest h01]; rfl,
                  by rw [partsContrib_ne01 7 t rest h01]; rfl,
                  by rw [partsContrib_ne01 8 t rest h01]; rfl⟩
              · rw [if_neg hemp]
                exact ⟨h, by rw [partsContrib_ne01 6 t rest h01]; rfl,
                  by rw [partsContrib_ne01 7 t rest h01]; rfl,
                  by rw [partsContrib_ne01 8 t rest h01]; rfl⟩

theorem eevdParse_soma (detalhes : List Str) :
    eevdWF (eevdParse detalhes)
    ∧ eevdSomaBruto (eevdParse detalhes) = (detalhes.map (contrib01 6)).sum
    ∧ eevdSomaDesc (eevdParse detalhes) = (detalhes.map (contrib01 7)).sum
    ∧ eevdSomaLiq (eevdParse detalhes) = (detalhes.map (contrib01 8)).sum := by
  have hgen : ∀ (ls : List Str) (st : EevdState), eevdWF st →
      eevdWF (ls.foldl eevdStep st)
      ∧ eevdSomaBruto (ls.foldl eevdStep st)
          = eevdSomaBruto st + (ls.map (contrib01 6)).sum
      ∧ eevdSomaDesc (ls.foldl eevdStep st)
          = eevdSomaDesc st + (ls.map (contrib01 7)).sum
      ∧ eevdSomaLiq (ls.foldl eevdStep st)
          = eevdSomaLiq st + (ls.map (contrib01 8)).sum := by
    intro ls
    induction ls with
    | nil =>
        intro st h
        exact ⟨h, by simp, by simp, by simp⟩
    | cons raw restl ih =>
        intro st h
        rw [List.foldl_cons]
        have hstep := eevdStepParts_soma_wf st (splitComma raw) h
        have hrec := ih (eevdStep st raw) hstep.1
        refine ⟨hrec.1, ?_, ?_, ?_⟩
        · rw [hrec.2.1, List.map_cons, List.sum_cons]
          show eevdSomaBruto (eevdStepParts st (splitComma raw)) + _ = _
          rw [hstep.2.1, contrib01_eq]
          omega
        · rw [hrec.2.2.1, List.map_cons, List.sum_cons]
          show eevdSomaDesc (eevdStepParts st (splitComma raw)) + _ = _
          rw [hstep.2.2.1, contrib01_eq]
          omega
        · rw [hrec.2.2.2, List.map_cons, List.sum_cons]
          show eevdSomaLiq (eevdStepParts st (splitComma raw)) + _ = _
          rw [hstep.2.2.2, contrib01_eq]
          omega
  have h0 : eevdWF eevdInit := ⟨List.nodup_nil, fun k _ => rfl⟩
  have := hgen detalhes eevdInit h0
  refine ⟨this.1, ?_, ?_, ?_⟩
  · show eevdSomaBruto (detalhes.foldl eevdStep eevdInit) = _
    rw [this.2.1]
    show 0 + _ = _
    omega
  · show eevdSomaDesc (detalhes.foldl eevdStep eevdInit) = _
    rw [this.2.2.1]
    show 0 + _ = _
    omega
  · show eevdSomaLiq (detalhes.foldl eevdStep eevdInit) = _
    rw [this.2.2.2]
    show 0 + _ = _
    omega

/-- **C2.**  Each EEVD type "011" (cancellation) record with a non-empty
PV at field index 1 is appended to that PV's bucket (hence to its child
file, whose records are the bucket's) and increments the PV's CV
counter, while leaving the bruto, desconto and líquido accumulators of
that PV untouched; and the reconciliation sums compared against the
mother 04 trailer accumulate from type "01" records only. -/
theorem claim_C2_eevd_011 :
    (∀ st parts pv, parts.get? 0 = some (strOf "011") → parts.get? 1 = some pv →
      pv ≠ [] →
      lookupBucket (eevdStepParts st parts).regs pv
          = lookupBucket st.regs pv ++ [parts]
      ∧ ((eevdStepParts st parts).stats pv).qtd_cv = (st.stats pv).qtd_cv + 1
      ∧ ((eevdStepParts st parts).stats pv).bruto = (st.stats pv).bruto
      ∧ ((eevdStepParts st parts).stats pv).desconto = (st.stats pv).desconto
      ∧ ((eevdStepParts st parts).stats pv).liquido = (st.stats pv).liquido)
    ∧ (∀ detalhes,
        eevdSomaBruto (eevdParse detalhes) = (detalhes.map (contrib01 6)).sum
        ∧ eevdSomaDesc (eevdParse detalhes) = (detalhes.map (contrib01 7)).sum
        ∧ eevdSomaLiq (eevdParse detalhes) = (detalhes.map (contrib01 8)).sum)
    ∧ (∀ hp matriz pv s regs r, r ∈ regs → r ∈ eevdChildRecs hp matriz pv s regs) := by
  refine ⟨eevdStep011_spec, fun detalhes => (eevdParse_soma detalhes).2, ?_⟩
  intro hp matriz pv s regs r hr
  unfold eevdChildRecs
  dsimp only
  exact List.mem_append_left _ (List.mem_cons_of_mem _ hr)

/-- Witness for C2 at concrete records: the 011 cancellation of
`eevdExLines` is appended to the bucket of PV 123456789 and the
reconciliation sums of the concrete detail list come from the 01 record
alone. -/
theorem claim_C2_eevd_011_witness :
    lookupBucket (eevdStepParts (eevdParse [eevdEx01]) (splitComma eevdEx011)).regs
        (strOf "123456789")
      = lookupBucket (eevdParse [eevdEx01]).regs (strOf "123456789")
          ++ [splitComma eevdEx011]
    ∧ eevdSomaBruto (eevdParse [eevdEx01, eevdEx011]) = 30000 := by
  constructor
  · exact (claim_C2_eevd_011.1 (eevdParse [eevdEx01]) (splitComma eevdEx011)
      (strOf "123456789") (by decide) (by decide) (by decide)).1
  · rw [(claim_C2_eevd_011.2.1 [eevdEx01, eevdEx011]).1]
    decide

/-! ### C6: the three EEVD child trailers -/

/-- **C6.**  Every EEVD child with movement carries exactly three
appended trailer records, in the order 02, 03, 04: the 03 record is the
02 record with only its type field changed (identical counters and
totals), and the final "total de registros" field of the 04 record is
`len(linhas_out) + 3`, i.e. one header line plus the detail lines
plus the three trailers. -/
theorem claim_C6_eevd_trailers (headerParts : List Str) (matriz pv : Str)
    (s : EevdStats) (regs : List (List Str)) :
    eevdChildRecs headerParts matriz pv s regs
      = (headerParts.set 1 pv) :: regs
          ++ [eevdReg02 matriz s, eevdReg03 matriz s,
              eevdReg04 matriz s (regs.length + 1 + 3)]
    ∧ (eevdChildRecs headerParts matriz pv s regs).length = regs.length + 4
    ∧ (eevdReg02 matriz s).get? 0 = some (strOf "02")
    ∧ (eevdReg03 matriz s).get? 0 = some (strOf "03")
    ∧ (eevdReg04 matriz s (regs.length + 1 + 3)).get? 0 = some (strOf "04")
    ∧ (eevdReg03 matriz s).tail = (eevdReg02 matriz s).tail
    ∧ (eevdReg04 matriz s (regs.length + 1 + 3)).getLast?
        = some (padNum (regs.length + 1 + 3) 6) := by
  refine ⟨rfl, ?_, rfl, rfl, rfl, rfl, rfl⟩
  unfold eevdChildRecs
  dsimp only
  simp only [List.length_append, List.length_cons, List.length_nil]

/-! ### C5: the header rewrite of each child kind -/

theorem take_overwrite (pre mid post : Str) (a : Nat) (ha : pre.length = a) :
    ((pre ++ mid) ++ post).take a = pre := by
  subst ha
  rw [List.append_assoc]
  rw [take_append_of_le_len pre.length pre (mid ++ post) (Nat.le_refl _)]
  exact List.take_length pre

theorem sliceL_overwrite (pre mid post : Str) (a b : Nat)
    (ha : pre.length = a) (hb : pre.length + mid.length = b) :
    sliceL ((pre ++ mid) ++ post) a b = mid := by
  subst ha
  subst hb
  rw [List.append_assoc]
  exact sliceL_append_exact pre mid post

theorem drop_overwrite (pre mid post : Str) (b : Nat)
    (hb : pre.length + mid.length = b) :
    ((pre ++ mid) ++ post).drop b = post := by
  subst hb
  rw [← List.length_append]
  exact List.drop_left _ _

theorem get?_set_one_eq (l : List Str) (v : Str) (h : 1 < l.length) :
    (l.set 1 v).get? 1 = some v := by
  cases l with
  | nil => cases h
  | cons a t =>
      cases t with
      | nil =>
          rw [List.length_cons, List.length_nil] at h
          omega
      | cons b t2 => rfl

theorem get?_set_one_ne (l : List Str) (v : Str) (j : Nat) (hj : j ≠ 1) :
    (l.set 1 v).get? j = l.get? j := by
  cases l with
  | nil => rfl
  | cons a t =>
      cases t with
      | nil => rfl
      | cons b t2 =>
          cases j with
          | zero => rfl
          | succ k =>
              cases k with
              | zero => exact absurd rfl hj
              | succ k2 => rfl

/-- **C5.** (amended)  Header rewriting differs per kind.  EEFI: the
child 030 header overwrites exactly the 0-based byte range [81,90) of
the mother header with the PV zero-padded to nine digits, leaving the
bytes below 81 and from 90 on intact.  EEVC: the 002 header replaces
the nine digits that follow the first run of fifteen digits (six NSA
digits plus the establishment code), at a position found by regex, not
at a fixed offset, and is returned unchanged when no such run exists.
EEVD: the child header is the mother header record with CSV field
index 1 replaced by the bucket PV as-is (not zero-padded). -/
theorem claim_C5_header_rewrite :
    (∀ hdr pv regs, 90 ≤ hdr.length → (padNum (digitsVal pv) 9).length = 9 →
      (eefiChildLines hdr pv regs).headD []
          = (hdr.take 81 ++ padNum (digitsVal pv) 9) ++ hdr.drop 90
      ∧ ((eefiChildLines hdr pv regs).headD []).take 81 = hdr.take 81
      ∧ sliceL ((eefiChildLines hdr pv regs).headD []) 81 90
          = padNum (digitsVal pv) 9
      ∧ ((eefiChildLines hdr pv regs).headD []).drop 90 = hdr.drop 90)
    ∧ (∀ h pv i, findRun 15 h = some i → pv.length ≤ 9 →
        (rewrite_header_with_pv h pv).take (i + 6) = h.take (i + 6)
        ∧ sliceL (rewrite_header_with_pv h pv) (i + 6) (i + 15) = zfill 9 pv
        ∧ (rewrite_header_with_pv h pv).drop (i + 15) = h.drop (i + 15))
    ∧ (∀ h pv, findRun 15 h = none → rewrite_header_with_pv h pv = h)
    ∧ (∀ (hp : List Str) (matriz pv : Str) (s : EevdStats)
          (regs : List (List Str)),
        (eevdChildRecs hp matriz pv s regs).headD [] = hp.set 1 pv
        ∧ (1 < hp.length → (hp.set 1 pv).get? 1 = some pv)
        ∧ ∀ j, j ≠ 1 → (hp.set 1 pv).get? j = hp.get? j) := by
  refine ⟨?_, ?_, ?_, ?_⟩
  · intro hdr pv regs h90 hpv
    have htake : (padNum (digitsVal pv) 9).take (90 - 81) = padNum (digitsVal pv) 9 :=
      List.take_of_length_le (by rw [hpv])
    have hmid : (padNum (digitsVal pv) 9).take (90 - 81)
        ++ List.replicate ((90 - 81)
            - ((padNum (digitsVal pv) 9).take (90 - 81)).length) ' '
        = padNum (digitsVal pv) 9 := by
      rw [htake, hpv]
      simp
    have hw : write_fixed hdr 81 90 (padNum (digitsVal pv) 9)
        = (hdr.take 81 ++ padNum (digitsVal pv) 9) ++ hdr.drop 90 := by
      unfold write_fixed
      rw [hmid]
    have hhead : (eefiChildLines hdr pv regs).headD []
        = write_fixed hdr 81 90 (padNum (digitsVal pv) 9) := rfl
    have hlen81 : (hdr.take 81).length = 81 := by
      rw [List.length_take]
      omega
    refine ⟨by rw [hhead, hw], ?_, ?_, ?_⟩
    · rw [hhead, hw]
      exact take_overwrite _ _ _ _ hlen81
    · rw [hhead, hw]
      exact sliceL_overwrite _ _ _ _ _ hlen81 (by rw [hlen81, hpv])
    · rw [hhead, hw]
      exact drop_overwrite _ _ _ _ (by rw [hlen81, hpv])
  · intro h pv i hfind hple
    have hb := findRun_bound 15 h i hfind
    have hz : (zfill 9 pv).length = 9 := zfill_length_of_le 9 pv hple
    have hr : rewrite_header_with_pv h pv
        = (h.take (i + 6) ++ zfill 9 pv) ++ h.drop (i + 15) := by
      unfold rewrite_header_with_pv
      rw [hfind]
    have hlen : (h.take (i + 6)).length = i + 6 := by
      rw [List.length_take]
      omega
    refine ⟨?_, ?_, ?_⟩
    · rw [hr]
      exact take_overwrite _ _ _ _ hlen
    · rw [hr]
      exact sliceL_overwrite _ _ _ _ _ hlen (by rw [hlen, hz])
    · rw [hr]
      exact drop_overwrite _ _ _ _ (by rw [hlen, hz])
  · intro h pv hnone
    unfold rewrite_header_with_pv
    rw [hnone]
  · intro hp matriz pv s regs
    refine ⟨rfl, ?_, ?_⟩
    · intro hlt
      exact get?_set_one_eq hp pv hlt
    · intro j hj
      exact get?_set_one_ne hp pv j hj

/-- Witness for C5 at concrete headers: the EEFI child header carries
the padded PV at [81,90), the EEVC header rewrite places the padded PV
after the six NSA digits of its fifteen-digit run, a header with no
such run is unchanged, and the EEVD header carries the PV at field 1. -/
theorem claim_C5_header_rewrite_witness :
    sliceL ((eefiChildLines eefiExHeader (strOf "123456789") []).headD []) 81 90
        = padNum (digitsVal (strOf "123456789")) 9
    ∧ sliceL (rewrite_header_with_pv eevcExHeader (strOf "55")) 6 15
        = zfill 9 (strOf "55")
    ∧ rewrite_header_with_pv (strOf "00") (strOf "7") = strOf "00"
    ∧ ((splitComma eevdExHeader).set 1 (strOf "123456789")).get? 1
        = some (strOf "123456789") := by
  refine ⟨(claim_C5_header_rewrite.1 eefiExHeader (strOf "123456789") []
      (by decide) (by decide)).2.2.1, ?_, ?_, ?_⟩
  · exact (claim_C5_header_rewrite.2.1 eevcExHeader (strOf "55") 0
      (by decide) (by decide)).2.1
  · exact claim_C5_header_rewrite.2.2.1 (strOf "00") (strOf "7") (by decide)
  · exact (claim_C5_header_rewrite.2.2.2 (splitComma eevdExHeader) (strOf "0")
      (strOf "123456789") eevdStatsInit []).2.1 (by decide)

/-- C5 counterexample: byte 81 (0-based) of the EEFI child header — a
position OUTSIDE the claimed frame [82,90) — differs from the mother
header, because the code overwrites [81,90) (manual bytes 082-090),
nine bytes, where the claimed frame [82,90) holds only eight. -/
theorem claim_C5_counterexample :
    ((eefiChildLines eefiExHeader (strOf "123456789") []).headD []).get? 81
        = some (Char.ofNat 49)
    ∧ eefiExHeader.get? 81 = some (Char.ofNat 88) := by decide

/-! ### C8: naming and placement of the children -/

/-- **C8.** (amended)  Child naming differs per kind.  EEFI children are
`<PV>_<DDMMAAAA>_<NSA6>_EEFI.txt` (EIGHT-character emission date,
`header[3:11]`; six-digit NSA `header[75:81]`) inside
`<output_root>/NSA_<NSA6>/`.  EEVC children are
`<PV>_<DDMMAA>_<NSA>_EEVC.txt` written DIRECTLY into the output
directory, with no per-NSA subdirectory.  EEVD children are
`<PV>_<DDMMAA>_<NSA3>_EEVD.txt` inside `<output_dir>/NSA_<NSA3>/`. -/
theorem claim_C8_child_naming :
    (∀ lines root f, f ∈ (processEefi lines root).files_generated →
      ∃ pv, f = joinPath
          (joinPath root (strOf "NSA_" ++ sliceL (lines.headD []) 75 81))
          (pv ++ strOf "_" ++ sliceL (lines.headD []) 3 11 ++ strOf "_"
            ++ sliceL (lines.headD []) 75 81 ++ strOf "_EEFI.txt"))
    ∧ (∀ lines filename outdir res,
        processEevc lines filename outdir = Except.ok res →
        ∀ f, f ∈ res.gerados → ∃ pv,
          f = ensure_outfile outdir (eevcChildName pv res.data_ref res.nsa))
    ∧ (∀ lines filename outdir res,
        processEevd lines filename outdir = Except.ok res →
        ∀ f, f ∈ res.filhos → ∃ pv,
          f = ensure_outfile (joinPath outdir (strOf "NSA_" ++ res.nsa))
            (pv ++ strOf "_" ++ res.data_ref ++ strOf "_" ++ res.nsa
              ++ strOf "_EEVD.txt")) := by
  refine ⟨?_, ?_, ?_⟩
  · intro lines root f hf
    cases lines with
    | nil =>
        simp [processEefi, eefiError] at hf
    | cons header rest =>
        unfold processEefi at hf
        dsimp only at hf
        split at hf
        · simp [eefiError] at hf
        · dsimp only at hf
          obtain ⟨kv, hkv, hfe⟩ := List.mem_map.mp hf
          exact ⟨kv.1, hfe.symm⟩
  · intro lines filename outdir res hres f hf
    unfold processEevc at hres
    split at hres
    · exact Except.noConfusion hres
    · dsimp only at hres
      split at hres
      · injection hres with h
        subst h
        dsimp only at hf
        obtain ⟨pv, hpv, hfe⟩ := List.mem_map.mp hf
        exact ⟨pv, hfe.symm⟩
      · exact Except.noConfusion hres
  · intro lines filename outdir res hres f hf
    unfold processEevd at hres
    split at hres
    · exact Except.noConfusion hres
    · dsimp only at hres
      split at hres
      · exact Except.noConfusion hres
      · split at hres
        · injection hres with h
          subst h
          simp at hf
        · injection hres with h
          subst h
          dsimp only at hf
          obtain ⟨kv, hkv, hfe⟩ := List.mem_map.mp hf
          exact ⟨kv.1, hfe.symm⟩

/-- Witness for C8: the child generated from the concrete EEFI mother
file is named with the eight-character date 05102025 and the NSA 000041
inside `out/NSA_000041/`. -/
theorem claim_C8_child_naming_witness :
    ∃ pv, strOf "out/NSA_000041/123456789_05102025_000041_EEFI.txt"
        = joinPath
            (joinPath (strOf "out")
              (strOf "NSA_" ++ sliceL (eefiExLines.headD []) 75 81))
            (pv ++ strOf "_" ++ sliceL (eefiExLines.headD []) 3 11 ++ strOf "_"
              ++ sliceL (eefiExLines.headD []) 75 81 ++ strOf "_EEFI.txt") :=
  claim_C8_child_naming.1 eefiExLines (strOf "out")
    (strOf "out/NSA_000041/123456789_05102025_000041_EEFI.txt") (by decide)

/-- C8 counterexample: the concrete EEFI run generates a child whose
date component is the EIGHT-character `05102025` (DDMMAAAA), not the
six-character `051025` (DDMMAA) required by the claim. -/
theorem claim_C8_counterexample :
    (processEefi eefiExLines (strOf "out")).files_generated
        = [strOf "out/NSA_000041/123456789_05102025_000041_EEFI.txt"]
    ∧ strOf "out/NSA_000041/123456789_05102025_000041_EEFI.txt"
        ≠ strOf "out/NSA_000041/123456789_051025_000041_EEFI.txt" := by
  decide

end Splitter
